import Mathlib

/-!
# Verification of the FusionChess rules engine (`src/FusionBoard.ts`)

This file gives a shallow embedding of the Fusion Chess rules engine.  The
engine (class `FusionBoard` extending the chess.js oracle) is translated
definition by definition from `src/FusionBoard.ts`.  The external chess rule
oracle (chess.js) is not part of the repository; its operations
(`get/put/remove`, `move`, `isAttacked`, `isCheck`, `findKing`) are modelled
from the spec's interface boundary (§6: a conformant standard-chess
evaluator) as concrete functions on a structural position type.  Castling
and en-passant moves of the oracle are not modelled (no verified property
exercises them); everything else follows the source.

Positions are structural rather than FEN strings: `new Chess(this.fen())`
becomes a value copy, `this.load(fen)` becomes replacing the position value.
The serialization layer (`export`/`import`) is modelled separately at the
string (character-list) level in namespace `StringModel`.
-/

namespace FusionChess

/-- Piece types of the oracle (chess.js `PieceSymbol`). -/
inductive PieceType
  | pawn | knight | bishop | rook | queen | king
deriving DecidableEq, Repr

/-- Piece colours (chess.js `Color`). -/
inductive Color
  | white | black
deriving DecidableEq, Repr

/-- Inverse colour (`opponent()` / `colour === "w" ? "b" : "w"`). -/
def Color.other : Color → Color
  | .white => .black
  | .black => .white

/-- A piece as returned by the oracle's `get`. -/
structure Piece where
  ptype : PieceType
  color : Color
deriving DecidableEq, Repr

/-- A board square as (file, rank), both 0-7; file 0 = a, rank 0 = rank 1. -/
abbrev Square := Int × Int

/-- Whether a coordinate pair is on the 8x8 board. -/
def onBoard (s : Square) : Bool :=
  decide (0 ≤ s.1) && decide (s.1 < 8) && decide (0 ≤ s.2) && decide (s.2 < 8)

/-- chess.js `SQUARES`: a8, b8, ..., h8, a7, ..., h1. -/
def squareList : List Square :=
  ((List.range 8).reverse).flatMap fun r => (List.range 8).map fun f => ((f : Int), (r : Int))

/-- A board is an association list square → piece (occupied squares only). -/
abbrev Board := List (Square × Piece)

/-- Oracle `get(square)`: the piece on a square, if any. -/
def bGet (b : Board) (s : Square) : Option Piece :=
  (b.find? fun e => decide (e.1 = s)).map (·.2)

/-- Oracle `remove(square)`. -/
def bRemove (b : Board) (s : Square) : Board :=
  b.filter fun e => decide (e.1 ≠ s)

/-- Oracle `put(piece, square)` (replaces any existing occupant). -/
def bPut (b : Board) (s : Square) (p : Piece) : Board :=
  (s, p) :: bRemove b s

/-- A structural oracle position: placement, side to move, and the SAN of
the last move of the oracle's own history (`none` = empty history;
`load` clears it, `move` appends, `put`/`remove` keep it).  Only the last
entry is modelled because the engine reads only
`super.history({verbose: true}).slice(-1)[0].san`. -/
structure Position where
  board : Board
  turn : Color
  lastSan : Option String
deriving DecidableEq, Repr

/-- Sign of an integer (used for ray directions). -/
def sgn (x : Int) : Int := if 0 < x then 1 else if x < 0 then -1 else 0

/-- The squares strictly between two aligned squares (empty otherwise used
only under an alignment test). -/
def stepsBetween (a b : Square) : List Square :=
  let dx := b.1 - a.1
  let dy := b.2 - a.2
  let n := max dx.natAbs dy.natAbs
  (List.range n).filterMap fun k =>
    if k = 0 then none else some (a.1 + sgn dx * k, a.2 + sgn dy * k)

/-- No piece stands strictly between two aligned squares. -/
def pathClear (bd : Board) (a b : Square) : Bool :=
  (stepsBetween a b).all fun s => (bGet bd s).isNone

/-- Modelled from the spec: the oracle's attack relation for standard chess
(`isSquareAttacked` boundary, §6) — whether the piece `p` standing on `f`
attacks square `t`. -/
def attacksB (bd : Board) (f : Square) (p : Piece) (t : Square) : Bool :=
  let dx := t.1 - f.1
  let dy := t.2 - f.2
  if f = t then false else
  match p.ptype with
  | .pawn =>
      (decide (dx = 1) || decide (dx = -1)) &&
        decide (dy = (if p.color = .white then (1 : Int) else -1))
  | .knight =>
      (decide (dx.natAbs = 1) && decide (dy.natAbs = 2)) ||
        (decide (dx.natAbs = 2) && decide (dy.natAbs = 1))
  | .king => decide (dx.natAbs ≤ 1) && decide (dy.natAbs ≤ 1)
  | .rook => (decide (dx = 0) || decide (dy = 0)) && pathClear bd f t
  | .bishop => decide (dx.natAbs = dy.natAbs) && pathClear bd f t
  | .queen =>
      (decide (dx = 0) || decide (dy = 0) || decide (dx.natAbs = dy.natAbs)) &&
        pathClear bd f t

/-- Modelled from the spec: oracle `isAttacked(square, byColour)`. -/
def posIsAttacked (bd : Board) (t : Square) (byC : Color) : Bool :=
  squareList.any fun s =>
    match bGet bd s with
    | some p => decide (p.color = byC) && attacksB bd s p t
    | none => false

/-- `findKing(colour)` of the repository's `ChessBoard` subclass: scan
`SQUARES` for the first king of the colour (`none` models the throw). -/
def findKingB (bd : Board) (c : Color) : Option Square :=
  squareList.find? fun s =>
    match bGet bd s with
    | some p => decide (p.ptype = .king) && decide (p.color = c)
    | none => false

/-- Modelled from the spec: oracle `isCheck()` — the side to move's king is
attacked (false when that king is absent, as in the oracle). -/
def posIsCheck (p : Position) : Bool :=
  match findKingB p.board p.turn with
  | some k => posIsAttacked p.board k p.turn.other
  | none => false

/-- `kingBeingAttacked(colour)` of the `ChessBoard` subclass (`none` models
the `findKing` throw). -/
def kingBeingAttackedB (bd : Board) (c : Color) : Option Bool :=
  (findKingB bd c).map fun k => posIsAttacked bd k c.other

/-- Modelled from the spec: pseudo-legal movement for the oracle's
`move` (standard piece movement; castling/en-passant omitted). -/
def pseudoCan (bd : Board) (f : Square) (p : Piece) (t : Square) (isCap : Bool) : Bool :=
  match p.ptype, isCap with
  | .pawn, true => attacksB bd f p t
  | .pawn, false =>
      let dir : Int := if p.color = .white then 1 else -1
      let start : Int := if p.color = .white then 1 else 6
      (decide (t.1 = f.1) && decide (t.2 = f.2 + dir)) ||
        (decide (t.1 = f.1) && decide (f.2 = start) && decide (t.2 = f.2 + 2 * dir) &&
          (bGet bd (f.1, f.2 + dir)).isNone)
  | _, _ => attacksB bd f p t

/-- ASCII name of a square, e.g. (4,0) ↦ "e1". -/
def squareName (s : Square) : String :=
  String.mk [Char.ofNat (97 + s.1.toNat), Char.ofNat (49 + s.2.toNat)]

/-- Letter of a piece type. -/
def pieceLetter : PieceType → String
  | .pawn => "p" | .knight => "n" | .bishop => "b"
  | .rook => "r" | .queen => "q" | .king => "k"

/-- The oracle's move descriptor (chess.js `Move`; the SAN text is built
schematically, no verified property inspects it). -/
structure MoveDesc where
  color : Color
  piece : PieceType
  mfrom : Square
  mto : Square
  captured : Option PieceType
  isCapture : Bool
  san : String
deriving DecidableEq, Repr

/-- Modelled from the spec: the oracle's `move({from, to, promotion: "q"})`.
`none` models the oracle throwing on an illegal move.  Pawns reaching the
last rank promote to a queen (the engine always passes promotion `"q"`). -/
def chessMove (pos : Position) (f t : Square) : Option (MoveDesc × Position) :=
  if ¬ (onBoard f && onBoard t) then none else
  match bGet pos.board f with
  | none => none
  | some p =>
    if ¬ decide (p.color = pos.turn) then none else
    let tgt := bGet pos.board t
    let capt : Option PieceType :=
      match tgt with
      | some q => if q.color = p.color then none else some q.ptype
      | none => none
    if (match tgt with | some q => decide (q.color = p.color) | none => false) then none else
    if ¬ pseudoCan pos.board f p t capt.isSome then none else
    let placed : Piece :=
      if p.ptype = .pawn ∧ (t.2 = 7 ∨ t.2 = 0) then ⟨.queen, p.color⟩ else p
    let b2 := bPut (bRemove pos.board f) t placed
    let safe : Bool :=
      match findKingB b2 p.color with
      | some ks => ¬ posIsAttacked b2 ks p.color.other
      | none => true
    if ¬ safe then none else
    some ({ color := p.color, piece := p.ptype, mfrom := f, mto := t,
            captured := capt, isCapture := capt.isSome,
            san := pieceLetter p.ptype ++ squareName t },
          { board := b2, turn := p.color.other,
            lastSan := some (pieceLetter p.ptype ++ squareName t) })

/-- Modelled from the spec: the oracle's legal move list (`generateMoves`
boundary), optionally restricted to one source square. -/
def oracleMoves (pos : Position) (sq : Option Square) : List MoveDesc :=
  (match sq with | some s => [s] | none => squareList).flatMap fun f =>
    squareList.filterMap fun t => (chessMove pos f t).map Prod.fst

/-! ## The Fusion Map and King Fusion Table

`#fused` is a JS object keyed by square names; we model it as an insertion
ordered association list with JS-object semantics (lookup, `delete`, keyed
assignment that updates in place or appends). -/

/-- The Fusion Map: square → secondary piece type. -/
abbrev FusedMap := List (Square × PieceType)

/-- JS object read `m[s]`. -/
def objGet (m : FusedMap) (s : Square) : Option PieceType :=
  (m.find? fun e => decide (e.1 = s)).map (·.2)

/-- JS `delete m[s]`. -/
def objDelete (m : FusedMap) (s : Square) : FusedMap :=
  m.filter fun e => decide (e.1 ≠ s)

/-- JS keyed assignment `m[s] = v` (update in place, else append; JS object
keys are unique, so updating the first occurrence is exact). -/
def objSet (m : FusedMap) (s : Square) (v : PieceType) : FusedMap :=
  match m with
  | [] => [(s, v)]
  | e :: rest => if e.1 = s then (s, v) :: rest else e :: objSet rest s v

/-- The King Fusion Table `#king_fused` (keys `"wK"`/`"bK"`). -/
structure KingFused where
  whiteK : Option PieceType
  blackK : Option PieceType
deriving DecidableEq, Repr

/-- Read `#king_fused[colour + "K"]`. -/
def kfGet (k : KingFused) : Color → Option PieceType
  | .white => k.whiteK
  | .black => k.blackK

/-- Write `#king_fused[colour + "K"] = v`. -/
def kfSet (k : KingFused) (c : Color) (v : PieceType) : KingFused :=
  match c with
  | .white => { k with whiteK := some v }
  | .black => { k with blackK := some v }

/-- A history record.  The source stores `{fsan, ffen}` where `ffen` is the
full exported compound-state string; we model the record by the compound
state it carries (the annotated SAN text is not inspected by any verified
property). -/
structure Snapshot where
  primary : Position
  fused : FusedMap
  kingFused : KingFused
deriving DecidableEq, Repr

/-- The full `FusionBoard` state: primary position, Fusion Map, King Fusion
Table, move history, and the stored `#virtual_board`. -/
structure FusionState where
  primary : Position
  fused : FusedMap
  kingFused : KingFused
  history : List Snapshot
  virtualBoard : Position
deriving DecidableEq, Repr

/-- The compound-state part recorded by `updateHistory` (`this.export()`). -/
def snap (S : FusionState) : Snapshot :=
  ⟨S.primary, S.fused, S.kingFused⟩

/-- `_updateVirtualBoard`'s loop body: apply the fused entries on top of the
primary placement.  The source wraps the whole loop in `try`/`catch`, so a
fused square with no occupant aborts the rest of the loop; a fused king
square is skipped. -/
def applyFused (primaryB : Board) : Board → List (Square × PieceType) → Board
  | vb, [] => vb
  | vb, (sq, pt) :: rest =>
    match bGet primaryB sq with
    | none => vb
    | some pc =>
      if pc.ptype = .king then applyFused primaryB vb rest
      else applyFused primaryB (bPut vb sq ⟨pt, pc.color⟩) rest

/-- `_updateVirtualBoard()`: rebuild the virtual position from the primary
position and the Fusion Map (`load(this.fen())` — which clears the virtual
board's own history — then `put` each entry). -/
def updateVirtualBoard (p : Position) (fused : FusedMap) : Position :=
  { board := applyFused p.board p.board fused, turn := p.turn, lastSan := none }

/-- The overridden public `isAttacked(square, colour)`: primary or stored
virtual board. -/
def FusionState.isAttacked (S : FusionState) (sq : Square) (c : Color) : Bool :=
  posIsAttacked S.primary.board sq c || posIsAttacked S.virtualBoard.board sq c

/-- `isKingChecking(movefrom?, moveto?)`: if the opponent's king is fused,
substitute the fused piece type on the opponent king's square of a primary
copy (after force-applying the candidate move, when given) and ask whether
the mover's king is in check.  `none` models an exception escaping the
function (missing opponent king, or forcing a move from an empty square). -/
def isKingChecking (primary : Position) (kf : KingFused) (mv : Option (Square × Square)) :
    Option Bool :=
  match kfGet kf primary.turn.other with
  | none => some false
  | some kt =>
    match findKingB primary.board primary.turn.other with
    | none => none
    | some oks =>
      let step1 : Option Board :=
        match mv with
        | none => some primary.board
        | some (f, t) =>
          match bGet primary.board f with
          | none => none
          | some origin => some (bPut (bRemove primary.board f) t origin)
      match step1 with
      | none => none
      | some b1 =>
        let b2 := bPut (bRemove b1 oks) oks ⟨kt, primary.turn.other⟩
        some (posIsCheck { board := b2, turn := primary.turn, lastSan := none })

/-- `isInCheck()`: primary check, or virtual-board check, or the king-fusion
simulation (`none` models an exception from `isKingChecking`). -/
def isInCheckE (primary vb : Position) (kf : KingFused) : Option Bool :=
  if posIsCheck primary then some true
  else if posIsCheck vb then some true
  else isKingChecking primary kf none

/-- The castling trigger of `_willJeopardiseKing` (lines 399-404).  The
source checks `virtual.get(movefrom).type === "k"` only on the e8→c8
disjunct; `none` models the TypeError when e8 is empty on the virtual
board (which escapes the function — the castling test runs outside the
`try`). -/
def castleTriggerE (vb : Position) (f t : Square) : Option Bool :=
  if (f = ((4:Int),(0:Int)) ∧ t = ((6:Int),(0:Int))) ∨
     (f = ((4:Int),(0:Int)) ∧ t = ((2:Int),(0:Int))) ∨
     (f = ((4:Int),(7:Int)) ∧ t = ((6:Int),(7:Int))) then some true
  else if f = ((4:Int),(7:Int)) ∧ t = ((2:Int),(7:Int)) then
    (bGet vb.board f).map fun p => decide (p.ptype = .king)
  else some false

/-- `_willJeopardiseKing(movefrom, moveto)`.  Re-derives the virtual board,
handles the castling special case, then force-applies the move on a copy of
the virtual board and tests `kingBeingAttacked || isKingChecking`; any
exception inside the `try` other than the deliberate `SafeError` yields
`false`.  `none` models an exception escaping the function (only possible
in the castling branch). -/
def willJeopardiseKing (S : FusionState) (f t : Square) : Option Bool :=
  let vb := updateVirtualBoard S.primary S.fused
  match castleTriggerE vb f t with
  | none => none
  | some true =>
    match isInCheckE S.primary vb S.kingFused with
    | none => none
    | some true => some true
    | some false =>
      let cb := bRemove vb.board f
      let pass : Square :=
        if t = ((6:Int),(0:Int)) then ((5:Int),(0:Int))
        else if t = ((6:Int),(7:Int)) then ((5:Int),(7:Int))
        else if t = ((2:Int),(0:Int)) then ((3:Int),(0:Int))
        else ((3:Int),(7:Int))
      let kcol : Color :=
        if t = ((6:Int),(0:Int)) ∨ t = ((2:Int),(0:Int)) then .white else .black
      some (posIsCheck { board := bPut cb pass ⟨.king, kcol⟩, turn := vb.turn,
                         lastSan := none })
  | some false =>
    match bGet vb.board f with
    | none => some false
    | some target =>
      let cb := bPut (bRemove vb.board f) t target
      match findKingB cb vb.turn with
      | none => some false
      | some ks =>
        if posIsAttacked cb ks vb.turn.other then some true
        else
          match isKingChecking S.primary S.kingFused (some (f, t)) with
          | none => some false
          | some b => some b

/-- `_fixMissingKing(copy)`: place a placeholder king of the mover's colour
on the first empty unattacked square (scan order reversed for white);
`none` models the final `throw` when no safe square exists.  (The source
reverses the shared `SQUARES` array in place; the model uses the per-call
value.) -/
def fixMissingKing (turnC : Color) (copy : Position) : Option Position :=
  let sqs := if turnC = .white then squareList.reverse else squareList
  match sqs.find? (fun s =>
      (bGet copy.board s).isNone && ! posIsAttacked copy.board s copy.turn.other) with
  | some s => some { copy with board := bPut copy.board s ⟨.king, turnC⟩ }
  | none => none

/-- `_getPieceValue`. -/
def getPieceValue : PieceType → Nat
  | .king => 1000
  | .queen => 9
  | .rook => 5
  | .bishop => 3
  | .knight => 3
  | .pawn => 1

/-- `pickStrongerPiece` (ties keep the first argument: `>=`). -/
def pickStrongerPiece (p1 p2 : PieceType) : PieceType :=
  if getPieceValue p2 ≤ getPieceValue p1 then p1 else p2

/-- The `updateMovement` closure: migrate a Fusion Map entry from the move's
source square to its destination (iterating a snapshot of the entries). -/
def updateMovementF (fused : FusedMap) (f t : Square) : FusedMap :=
  fused.foldl (fun acc e => if e.1 = f then objSet (objDelete acc f) t e.2 else acc) fused

/-- Result of `movePiece`: the returned `Move`, the `false` sentinel, or an
exception escaping to the caller. -/
inductive MoveOutcome
  | success (m : MoveDesc)
  | rejected
  | thrown
deriving DecidableEq, Repr

/-- Whether a `movePiece` outcome returned a move. -/
def MoveOutcome.isSuccess : MoveOutcome → Bool
  | .success _ => true
  | _ => false

/-- The filter callback of `moves({verbose, square})` (lines 351-364): in
verbose mode drop jeopardising moves; otherwise the callback throws on the
first candidate.  An exception escaping `_willJeopardiseKing` propagates. -/
def movesFilter (S : FusionState) (verbose : Bool) :
    List MoveDesc → Except String (List MoveDesc)
  | [] => .ok []
  | m :: rest =>
    if verbose then
      match willJeopardiseKing S m.mfrom m.mto with
      | none => .error "exception"
      | some true => movesFilter S verbose rest
      | some false => (movesFilter S verbose rest).map (m :: ·)
    else .error "san strings are not currently implemented"

/-- `moves({verbose, square})`: the oracle's candidate list run through the
filter. -/
def movesFn (S : FusionState) (verbose : Bool) (sq : Option Square) :
    Except String (List MoveDesc) :=
  movesFilter S verbose (oracleMoves S.primary sq)

/-- `_fixMissingKing(copy)` when `copy` is a `FusionBoard` (the
`_getKingFusedMoves` call site): `copy.isAttacked` there is the overridden
disjunction of the copy's primary board and the copy's stored virtual
board.  `none` models the final `throw`. -/
def fixMissingKingFB (turnC : Color) (copy copyVb : Position) : Option Position :=
  let sqs := if turnC = .white then squareList.reverse else squareList
  match sqs.find? (fun s =>
      (bGet copy.board s).isNone &&
        ! (posIsAttacked copy.board s copy.turn.other ||
           posIsAttacked copyVb.board s copy.turn.other)) with
  | some s => some { copy with board := bPut copy.board s ⟨.king, turnC⟩ }
  | none => none

/-- `_getKingFusedMoves()` (lines 469-506): copy the state onto a fresh
`FusionBoard` (empty King Fusion Table, oracle history cleared by `load`),
swap the mover's king for its fused type, place a placeholder king, list
the copy's moves from the king square, and keep those whose destination is
not attacked (via the copy's overridden `isAttacked`; its stored virtual
board has been re-derived by the copy's jeopardy filter whenever the list
is non-empty).  `none` models an exception escaping (`findKing` on the real
board, `_fixMissingKing`, or the copy's move filter). -/
def getKingFusedMovesE (S : FusionState) : Option (List (Square × Square)) :=
  let copyPrime : Position := { board := S.primary.board, turn := S.primary.turn,
                                lastSan := none }
  let vb474 := updateVirtualBoard copyPrime S.fused
  match kfGet S.kingFused S.primary.turn with
  | none => some []
  | some kft =>
    match findKingB S.primary.board S.primary.turn with
    | none => none
    | some king =>
      let swapped : Position :=
        { copyPrime with board := bPut (bRemove copyPrime.board king) king
                                    ⟨kft, S.primary.turn⟩ }
      match fixMissingKingFB S.primary.turn swapped vb474 with
      | none => none
      | some copy2 =>
        let copyState : FusionState :=
          { primary := copy2, fused := S.fused, kingFused := ⟨none, none⟩,
            history := [], virtualBoard := vb474 }
        match movesFn copyState true (some king) with
        | .error _ => none
        | .ok sw =>
          let vbF := updateVirtualBoard copy2 S.fused
          some ((sw.filter (fun mv =>
              ! (posIsAttacked copy2.board mv.mto S.primary.turn.other ||
                 posIsAttacked vbF.board mv.mto S.primary.turn.other))).map
            (fun mv => (mv.mfrom, mv.mto)))

/-- The removal loop of `getEveryMove` (lines 558-564): a JS `for...of`
over the move array while `splice(indexOf(move), 1)` removes jeopardising
entries.  The iterator index advances every round even when the array
shrank, so removals make it skip an element; `indexOf` removes the first
occurrence of the value.  `none` models an exception escaping
`_willJeopardiseKing`.  The fuel is only a structural-recursion bound:
the index grows by one each round while the length never grows, so
`arr.length` rounds always reach the exit condition first. -/
def spliceFilterAux (S : FusionState) :
    Nat → List (Square × Square) → Nat → Option (List (Square × Square))
  | 0, arr, _ => some arr
  | fuel + 1, arr, k =>
    if h : k < arr.length then
      let mv := arr.get ⟨k, h⟩
      match willJeopardiseKing S mv.1 mv.2 with
      | none => none
      | some true =>
        spliceFilterAux S fuel (arr.eraseIdx (arr.findIdx (fun x => decide (x = mv)))) (k + 1)
      | some false => spliceFilterAux S fuel arr (k + 1)
    else some arr

/-- The `getEveryMove` removal loop, started at index 0 with adequate
fuel. -/
def spliceFilter (S : FusionState) (arr : List (Square × Square)) :
    Option (List (Square × Square)) :=
  spliceFilterAux S arr.length arr 0

/-- `getEveryMove()` (lines 540-568) with `square` undefined (the
`isInCheckmate` call site): refresh the virtual board, collect the
filtered primary moves, the virtual board's oracle moves and (when the
mover's king is fused) the king-fusion simulation moves, as UCI
from/to pairs, then run the removal loop.  `none` models an exception
escaping any stage. -/
def getEveryMoveE (S : FusionState) : Option (List (Square × Square)) :=
  let vb := updateVirtualBoard S.primary S.fused
  let S1 := { S with virtualBoard := vb }
  match movesFn S1 true none with
  | .error _ => none
  | .ok mainB =>
    let virtB := oracleMoves vb none
    match (match kfGet S.kingFused S.primary.turn with
           | some _ => getKingFusedMovesE S1
           | none => some []) with
    | none => none
    | some kingF =>
      spliceFilter S1
        (mainB.map (fun mv => (mv.mfrom, mv.mto)) ++
          virtB.map (fun mv => (mv.mfrom, mv.mto)) ++ kingF)

/-- `_convertToFusionSAN(move)` (lines 644-669), modelled for its control
flow and state effect; the SAN text itself is not recorded by the model's
history records.  `none` models a throw: the TypeError of line 647 when
`move.to` is empty on the primary or the stored virtual board, the
TypeError of line 657 when the move is a stock move but the oracle's own
history is empty (after a `load`), an exception from `isInCheck()`
(`isKingChecking`'s `findKing` on a missing-but-fused king), or an
exception from `isInCheckmate()`'s `getEveryMove()`.  On success the
returned state reflects `getEveryMove`'s side effect of re-deriving the
stored virtual board (reached only in the check-suffix branch). -/
def convertToFusionSANE (S : FusionState) (m : MoveDesc) : Option FusionState :=
  match bGet S.primary.board m.mto, bGet S.virtualBoard.board m.mto with
  | some prim, some virt =>
    if prim.ptype = virt.ptype then
      match S.primary.lastSan with
      | some _ => some S
      | none => none
    else
      match isInCheckE S.primary S.virtualBoard S.kingFused with
      | none => none
      | some false => some S
      | some true =>
        match getEveryMoveE S with
        | none => none
        | some _ => some { S with virtualBoard := updateVirtualBoard S.primary S.fused }
  | _, _ => none

/-- The common successful exit: `updateMovement(); updateHistory(move);
return move` (the virtual board is re-derived inside `updateMovement`).
`updateHistory` computes the export string, then the Fusion SAN — which can
throw — and only then pushes the record; `.error` carries the state at the
throw, which falls to the enclosing `catch` of `movePiece`. -/
def finishStd (S : FusionState) (f t : Square) (m : MoveDesc) :
    Except FusionState (MoveOutcome × FusionState) :=
  let fused2 := updateMovementF S.fused f t
  let S2 := { S with fused := fused2, virtualBoard := updateVirtualBoard S.primary fused2 }
  match convertToFusionSANE S2 m with
  | none => .error S2
  | some S3 => .ok (.success m, { S3 with history := S3.history ++ [snap S3] })

/-- The `sourcePieceIs`/`targetPieceIs` closures: primary or virtual type. -/
def pieceIs (prim virt : Piece) (x : PieceType) : Bool :=
  decide (prim.ptype = x) || decide (virt.ptype = x)

/-- The body of `movePiece`'s `try` branch after `this.move` succeeded
(source lines 115-170).  `S2` already holds the post-move primary position;
the `Option Piece` arguments are the pre-move snapshots of lines 60-64.
`.error` carries the state at a throw inside the `try` (a TypeError on
`.type` of `undefined`, or the Fusion SAN conversion throwing inside
`updateHistory`); control then falls to the `catch` of line 171 with that
— already mutated — state. -/
def successPath (S2 : FusionState) (f t : Square)
    (srcO tgtO vSrcO vTgtO : Option Piece) (m : MoveDesc) :
    Except FusionState (MoveOutcome × FusionState) :=
  match tgtO with
  | none => finishStd S2 f t m
  | some tgt =>
    match srcO with
    | none => .error S2
    | some src =>
      if src.ptype = .king then
        -- king fusion special case (lines 117-132)
        let S3 := { S2 with fused := objDelete S2.fused t }
        match vTgtO with
        | none => .error S3
        | some vT =>
          if pieceIs tgt vT .pawn || decide (kfGet S3.kingFused src.color = some .queen) then
            finishStd S3 f t m
          else
            .ok (.success m, { S3 with kingFused := kfSet S3.kingFused src.color tgt.ptype })
      else
        match vSrcO, vTgtO with
        | some vS, some vT =>
          -- same-type guard (lines 135-144)
          if decide (src.ptype = tgt.ptype) || decide (vS.ptype = vT.ptype) ||
             (pieceIs src vS .queen &&
               (pieceIs tgt vT .rook || pieceIs tgt vT .bishop || pieceIs tgt vT .pawn)) then
            finishStd S2 f t m
          else
            -- rook/bishop special fusion (lines 146-157; the `load` clears
            -- the oracle's own history)
            let S4 :=
              if (pieceIs src vS .rook && pieceIs tgt vT .bishop) ||
                 (pieceIs src vS .bishop && pieceIs tgt vT .rook) then
                { S2 with
                  fused := objDelete (objDelete S2.fused f) t,
                  primary := { board := bPut S2.primary.board t ⟨.queen, src.color⟩,
                               turn := S2.primary.turn, lastSan := none } }
              else S2
            -- record the fusion (lines 159-164)
            let fusedA := objDelete (objDelete S4.fused t) f
            let S5 := { S4 with fused := objSet fusedA t (pickStrongerPiece tgt.ptype vT.ptype) }
            finishStd S5 f t m
        | _, _ => .error S2

/-- The restoration loop of the virtual-capability branch (lines 258-277):
migrate the source entry, keep the destination entry, and re-`put` every
other fused square's pre-move occupant on the primary board.  Returns the
accumulated board and map plus a flag marking the TypeError thrown when a
fused square is empty on the pre-move primary copy. -/
def innerCatchLoop (copyB : Board) (f t : Square) :
    Board → FusedMap → List (Square × PieceType) → Board × FusedMap × Bool
  | brd, fm, [] => (brd, fm, false)
  | brd, fm, (sq, pc) :: rest =>
    if sq = f then innerCatchLoop copyB f t brd (objSet (objDelete fm f) t pc) rest
    else if sq = t then innerCatchLoop copyB f t brd fm rest
    else
      match bGet copyB sq with
      | none => (brd, fm, true)
      | some orig => innerCatchLoop copyB f t (bPut brd sq orig) fm rest

/-- The castling test of the fallback branch (lines 232-239); the king
condition again only guards the e8→c8 disjunct, and reads the primary
board. -/
def castleCondInner (f t : Square) (srcIsKing : Bool) : Bool :=
  (decide (f = ((4:Int),(0:Int))) && decide (t = ((6:Int),(0:Int)))) ||
  (decide (f = ((4:Int),(0:Int))) && decide (t = ((2:Int),(0:Int)))) ||
  (decide (f = ((4:Int),(7:Int))) && decide (t = ((6:Int),(7:Int)))) ||
  (decide (f = ((4:Int),(7:Int))) && decide (t = ((2:Int),(7:Int))) && srcIsKing)

/-- The inner `catch` branch of `movePiece` (lines 221-282): blunder check
on a forced primary copy, castling rejection, then re-attempt the move on
the virtual board and force-apply its result onto the primary position
(`this.load(...)` clears the oracle's own history).  The final
`updateHistory` of line 280 runs inside no further `try`: a throw of the
Fusion SAN conversion escapes `movePiece` with the state mutated. -/
def innerCatch (S1 : FusionState) (f t : Square) (srcO : Option Piece) :
    MoveOutcome × FusionState :=
  match srcO with
  | none => (.thrown, S1)   -- copy.put reads sourcesquare.type: TypeError, uncaught
  | some src =>
    let copyB := bPut (bRemove S1.primary.board f) t src
    match findKingB copyB S1.primary.turn with
    | none => (.thrown, S1) -- findKing throws inside kingBeingAttacked, uncaught
    | some ks =>
      if posIsAttacked copyB ks S1.primary.turn.other then (.rejected, S1)
      else if castleCondInner f t (decide (src.ptype = .king)) then (.rejected, S1)
      else
        match chessMove S1.virtualBoard f t with
        | none => (.rejected, S1)
        | some (m, vb2) =>
          let copyP := S1.primary
          let S2 := { S1 with primary := { board := vb2.board, turn := vb2.turn,
                                           lastSan := none },
                              virtualBoard := vb2 }
          let fused1 :=
            if src.ptype ≠ .king then objSet S2.fused f src.ptype else S2.fused
          match innerCatchLoop copyP.board f t S2.primary.board fused1 fused1 with
          | (brd, fm, threw) =>
            let S3 := { S2 with primary := { S2.primary with board := brd },
                                fused := fm }
            if threw then (.thrown, S3)
            else
              let S4 := { S3 with virtualBoard := updateVirtualBoard S3.primary S3.fused }
              match convertToFusionSANE S4 m with
              | none => (.thrown, S4)
              | some S5 => (.success m, { S5 with history := S5.history ++ [snap S5] })

/-- The fused-king movement branch (lines 175-217): reject if the target is
attacked, substitute the fused type for the king on a primary copy, insert
a placeholder king, attempt the oracle move, and on success teleport the
real king and flip the side to move by FEN surgery (which clears the
oracle's own history; the virtual board is not re-derived here).  The
`updateHistory` of line 216 runs inside the `try` of line 172: a throw of
the Fusion SAN conversion (the stale virtual board is empty on the
destination of every non-capture) falls to the `catch` of line 221 with
the king already teleported and the turn already flipped. -/
def kingFusedPath (S1 : FusionState) (f t : Square) (src : Piece) (kt : PieceType) :
    MoveOutcome × FusionState :=
  if FusionState.isAttacked S1 t S1.primary.turn.other then (.rejected, S1)
  else
    let copy1 : Position :=
      { board := bPut (bRemove S1.primary.board f) f ⟨kt, src.color⟩,
        turn := S1.primary.turn, lastSan := none }
    match fixMissingKing S1.primary.turn copy1 with
    | none => innerCatch S1 f t (some src)   -- the throw is caught by the inner catch
    | some copy2 =>
      match chessMove copy2 f t with
      | none => (.rejected, S1)
      | some (m, _) =>
        let b2 := bPut (bRemove S1.primary.board f) t ⟨.king, src.color⟩
        let S2 := { S1 with primary := { board := b2, turn := S1.primary.turn.other,
                                         lastSan := none } }
        match convertToFusionSANE S2 m with
        | none => innerCatch S2 f t (some src)
        | some S3 => (.success m, { S3 with history := S3.history ++ [snap S3] })

/-- The outer `catch` of `movePiece` (lines 171-283): king-fusion special
movement when the source is a fused king, otherwise (via the deliberate
`SafeError`) the fallback branch. -/
def catchOuter (S1 : FusionState) (f t : Square) (srcO : Option Piece) :
    MoveOutcome × FusionState :=
  match srcO with
  | none => innerCatch S1 f t none  -- sourcesquare.type TypeError → inner catch
  | some src =>
    if src.ptype = .king then
      match kfGet S1.kingFused src.color with
      | some kt => kingFusedPath S1 f t src kt
      | none => innerCatch S1 f t (some src)
    else innerCatch S1 f t (some src)

/-- `movePiece(movefrom, moveto)` (lines 58-284).  An exception inside the
`try` of line 108 — the oracle rejecting the move, a TypeError on the
pre-move snapshots, or the Fusion SAN conversion throwing inside
`updateHistory` after the state was mutated — falls to the `catch` of
line 171 with the state at the throw. -/
def movePiece (S : FusionState) (f t : Square) : MoveOutcome × FusionState :=
  let tgtO := bGet S.primary.board t
  let srcO := bGet S.primary.board f
  let vb := updateVirtualBoard S.primary S.fused
  let S1 := { S with virtualBoard := vb }
  let vTgtO := bGet vb.board t
  let vSrcO := bGet vb.board f
  match willJeopardiseKing S1 f t with
  | none => (.thrown, S1)
  | some true => (.rejected, S1)
  | some false =>
    match chessMove S1.primary f t with
    | some (m, p2) =>
      match successPath { S1 with primary := p2 } f t srcO tgtO vSrcO vTgtO m with
      | .ok r => r
      | .error Se => catchOuter Se f t srcO
    | none => catchOuter S1 f t srcO

/-! ## The spec's wording of the jeopardy test

These definitions follow the specification sentence for the Legality
Validator — "a move is rejected iff at least one of the three
representations (primary, virtual, opponent-king-fusion-simulation)
reports the mover's king attacked post-move" — and are compared against
`willJeopardiseKing` above, which is translated from the source. -/

/-- Hypothetically apply the move: force the source occupant onto the
destination (the same force-apply style the validator itself uses). -/
def forcedBoard (bd : Board) (f t : Square) : Board :=
  match bGet bd f with
  | some pc => bPut (bRemove bd f) t pc
  | none => bd

/-- The primary representation reports the moving side's king attacked
after hypothetically applying the move. -/
def specPrimaryJeopardy (S : FusionState) (f t : Square) : Bool :=
  let b2 := forcedBoard S.primary.board f t
  match findKingB b2 S.primary.turn with
  | some ks => posIsAttacked b2 ks S.primary.turn.other
  | none => false

/-- The virtual representation reports the moving side's king attacked
after hypothetically applying the move. -/
def specVirtualJeopardy (S : FusionState) (f t : Square) : Bool :=
  let vb := updateVirtualBoard S.primary S.fused
  let b2 := forcedBoard vb.board f t
  match findKingB b2 vb.turn with
  | some ks => posIsAttacked b2 ks vb.turn.other
  | none => false

/-- The opponent-king-fusion simulation reports the moving side's king
attacked after hypothetically applying the move: when the opponent's king
holds a secondary capability, substitute that piece type on the opponent
king's square and test attack on the mover's king. -/
def specKingFusionSimJeopardy (S : FusionState) (f t : Square) : Bool :=
  match kfGet S.kingFused S.primary.turn.other with
  | none => false
  | some kt =>
    match findKingB S.primary.board S.primary.turn.other with
    | none => false
    | some oks =>
      let b1 := forcedBoard S.primary.board f t
      let b2 := bPut (bRemove b1 oks) oks ⟨kt, S.primary.turn.other⟩
      match findKingB b2 S.primary.turn with
      | some mk => posIsAttacked b2 mk S.primary.turn.other
      | none => false

/-- The spec's Legality Validator: some representation reports the moving
side's king attacked post-move. -/
def specJeopardy (S : FusionState) (f t : Square) : Bool :=
  specPrimaryJeopardy S f t || specVirtualJeopardy S f t || specKingFusionSimJeopardy S f t

/-! ## String model of `export()` / `import(str)`

`export` and `import` manipulate JavaScript strings; we model strings as
character lists and JS `String.prototype.split` explicitly, so that the
character-level behaviour (the trailing space of an entry-less export, the
trailing comma, the empty final token of `split(",")`) is captured exactly.
The oracle position string (FEN) is abstract data here; the oracle's
`validateFen` is modelled by its first criterion (six space-delimited
fields, splitting on whitespace runs with JS semantics), the only part the
round-trip behaviour depends on. -/

namespace StringModel

/-- Character-list strings. -/
abbrev Str := List Char

/-- JS `s.split(sep)` for a one-character separator. -/
def splitCh (sep : Char) : Str → List Str
  | [] => [[]]
  | c :: cs =>
    match splitCh sep cs with
    | [] => [[]]
    | u :: us => if c = sep then [] :: u :: us else (c :: u) :: us

/-- JS `arr.join(sep)` for a one-character separator. -/
def joinCh (sep : Char) : List Str → Str
  | [] => []
  | [u] => u
  | u :: us => u ++ sep :: joinCh sep us

/-- Helper for `wsSplit`: JS `split(/\s+/)` keeps a leading and a trailing
empty token but merges interior whitespace runs. -/
def dropMidEmpties : List Str → List Str
  | [] => []
  | [u] => [u]
  | u :: us => if u = [] then dropMidEmpties us else u :: dropMidEmpties us

/-- JS `s.split(/\s+/)` for strings whose only whitespace is `' '`. -/
def wsSplit (s : Str) : List Str :=
  match splitCh ' ' s with
  | [] => [[]]
  | [u] => [u]
  | u :: us => u :: dropMidEmpties us

/-- Modelled from the spec: the oracle's position validator `validateFen`
(first criterion — a FEN must contain six space-delimited fields; the
remaining criteria never fire on the strings `import` feeds it in the
verified properties). -/
def validateFenB (s : Str) : Bool :=
  decide ((wsSplit s).length = 6)

/-- `SQUARES` as two-character names, a8 … h1. -/
def squareNames : List Str :=
  (List.range 8).flatMap fun r =>
    (List.range 8).map fun f => [Char.ofNat (97 + f), Char.ofNat (56 - r)]

/-- `PIECES = ["p", "n", "b", "r", "q", "k"]`. -/
def pieceStrs : List Str := [['p'], ['n'], ['b'], ['r'], ['q'], ['k']]

/-- The reserved king tokens. -/
def wKs : Str := ['w', 'K']

/-- The reserved king tokens. -/
def bKs : Str := ['b', 'K']

/-- JS `toLowerCase` (ASCII). -/
def strLower (s : Str) : Str := s.map Char.toLower

/-- JS object read for string-keyed records. -/
def objGetS (m : List (Str × Str)) (k : Str) : Option Str :=
  (m.find? fun e => decide (e.1 = k)).map (·.2)

/-- JS keyed assignment for string-keyed records (keys unique). -/
def objSetS (m : List (Str × Str)) (k v : Str) : List (Str × Str) :=
  match m with
  | [] => [(k, v)]
  | e :: rest => if e.1 = k then (k, v) :: rest else e :: objSetS rest k v

/-- The serialization-level compound state: oracle position string, Fusion
Map and King Fusion Table as string-keyed records. -/
structure ExportState where
  fen : Str
  fused : List (Str × Str)
  kingFused : List (Str × Str)
deriving DecidableEq, Repr

/-- One `square=piece,` chunk of the export string. -/
def entryChunk (e : Str × Str) : Str := e.1 ++ '=' :: e.2 ++ [',']

/-- The `square=piece` part of a chunk (without the trailing comma). -/
def entryBody (e : Str × Str) : Str := e.1 ++ '=' :: e.2

/-- `export()` (lines 671-683): the position string, a space, then every
Fusion Map and King Fusion Table entry as `key=value,` (`{...fused,
...king_fused}` preserves insertion order; entries with empty values are
skipped by `if (piece)`). -/
def exportGame (S : ExportState) : Str :=
  S.fen ++ ' ' ::
    ((S.fused ++ S.kingFused).foldl (fun acc e => if e.2 = [] then acc else acc ++ entryChunk e) [])

/-- One round of `import`'s entry-validation loop (lines 707-714).  `some
true` = accepted/skipped, `some false` = `throw new Error("Invalid Fusion
Chess export string.")`, `none` = the TypeError on `pieceName.toLowerCase()`
when an entry has no `=` but a valid square name (`||` short-circuits, so
an invalid square name never evaluates the piece name). -/
def validateEntry (p : Str) : Option Bool :=
  if p = [] then some true else
  let parts := splitCh '=' p
  let square := parts.headD []
  if square ∈ squareNames then
    match parts.get? 1 with
    | none => none
    | some nm =>
      if strLower nm ∈ pieceStrs then some true
      else if square = bKs ∨ square = wKs then some true else some false
  else
    if square = bKs ∨ square = wKs then some true else some false

/-- The whole validation loop, first failure wins. -/
def validateEntries : List Str → Option Bool
  | [] => some true
  | p :: rest =>
    match validateEntry p with
    | some true => validateEntries rest
    | r => r

/-- The `king_fused` setter (lines 307-314): fold each `colour=piece` entry
into the table (no reset).  `none` models the TypeError on an entry without
`=`. -/
def kingSetter (kf : List (Str × Str)) : List Str → Option (List (Str × Str))
  | [] => some kf
  | p :: rest =>
    if p = [] then kingSetter kf rest
    else
      let parts := splitCh '=' p
      match parts.get? 1 with
      | none => none
      | some nm => kingSetter (objSetS kf (parts.headD []) (strLower nm)) rest

/-- The `fused` setter (lines 296-305): reset the map, then fold each
`square=piece` entry, skipping king tokens. -/
def fusedSetterAux (acc : List (Str × Str)) : List Str → Option (List (Str × Str))
  | [] => some acc
  | p :: rest =>
    if p = [] then fusedSetterAux acc rest
    else
      let parts := splitCh '=' p
      let square := parts.headD []
      if square = wKs ∨ square = bKs then fusedSetterAux acc rest
      else
        match parts.get? 1 with
        | none => none
        | some nm => fusedSetterAux (objSetS acc square (strLower nm)) rest

/-- The `fused` setter entry point (`this.#fused = {}` first). -/
def fusedSetter (l : List Str) : Option (List (Str × Str)) :=
  fusedSetterAux [] l

/-- `import(e_string)` (lines 685-725).  `vfen` abstracts the oracle
serialization of the trial virtual board built inside `import` (an external
`FusionBoard().load(fen); fused = entries; positions[2]` computation);
`S` is the importing instance's current state (the king setter merges into
the existing table).  Errors model the `throw`s; the commit is the final
`this.load(fen); this.fused = fusedPieces`. -/
def importGame (vfen : Str → List Str → Str) (S : ExportState) (estr : Str) :
    Except String ExportState :=
  let e := splitCh ' ' estr
  let endsComma := decide (estr.getLast? = some ',')
  let fen := if endsComma then joinCh ' ' e.dropLast else estr
  if ¬ validateFenB fen then .error "Invalid FEN: must contain six space-delimited fields"
  else
    let fusedPieces := if endsComma then splitCh ',' (e.getLastD []) else []
    if 0 < fusedPieces.length ∧ ¬ validateFenB (vfen fen fusedPieces) then
      .error "virtual board"
    else
      match validateEntries fusedPieces with
      | none => .error "TypeError"
      | some false => .error "Invalid Fusion Chess export string."
      | some true =>
        let kfEntries := fusedPieces.filter fun p => decide ('K' ∈ p)
        match (if 0 < fusedPieces.length ∧ kfEntries ≠ [] then kingSetter S.kingFused kfEntries
               else some S.kingFused) with
        | none => .error "TypeError"
        | some kf2 =>
          match fusedSetter fusedPieces with
          | none => .error "TypeError"
          | some fused2 => .ok { fen := fen, fused := fused2, kingFused := kf2 }

/-- The oracle's default position string. -/
def defaultFen : Str :=
  "rnbqkbnr/pppppppp/8/8/8/8/PPPPPPPP/RNBQKBNR w KQkq - 0 1".toList

/-- A constant stand-in for the oracle's serialization of the trial virtual
board inside `import` (any oracle-valid position string; the verified
properties only require that the oracle accepts it). -/
def constVfen : Str → List Str → Str := fun _ _ => defaultFen

/-- Concrete serialization state with one Fusion Map entry and one King
Fusion Table entry. -/
def roundTripState : ExportState :=
  ⟨defaultFen, [("e4".toList, "n".toList)], [("wK".toList, "r".toList)]⟩

/-- Concrete serialization state with empty fusion tables. -/
def emptyTablesState : ExportState := ⟨defaultFen, [], []⟩

end StringModel

/-! ## Concrete states used by the counterexamples and witnesses -/

/-- Build a synchronized engine state (empty history, virtual board derived
from the primary position and Fusion Map). -/
def mkState (b : Board) (c : Color) (fused : FusedMap) (kf : KingFused) : FusionState :=
  { primary := { board := b, turn := c, lastSan := none }, fused := fused, kingFused := kf,
    history := [],
    virtualBoard := updateVirtualBoard { board := b, turn := c, lastSan := none } fused }

/-- White bishop e2, white king e1, black rook e8 fused as a knight, black
king a8; white to move.  On the primary board the e8 rook pins the e2
bishop; on the virtual board e8 is a knight. -/
def c2State : FusionState :=
  mkState [(((4:Int),(1:Int)), ⟨.bishop, .white⟩),
           (((4:Int),(0:Int)), ⟨.king, .white⟩),
           (((4:Int),(7:Int)), ⟨.rook, .black⟩),
           (((0:Int),(7:Int)), ⟨.king, .black⟩)] .white
          [(((4:Int),(7:Int)), .knight)] ⟨none, none⟩

/-- White king e1, black rook d2 (undefended), black king a8; white to
move.  Kxd2 is a legal king capture that creates a king fusion. -/
def c3State : FusionState :=
  mkState [(((4:Int),(0:Int)), ⟨.king, .white⟩),
           (((3:Int),(1:Int)), ⟨.rook, .black⟩),
           (((0:Int),(7:Int)), ⟨.king, .black⟩)] .white [] ⟨none, none⟩

/-- Kings only; c3 is empty, so a move request from c3 moves a
non-occupant. -/
def c4State : FusionState :=
  mkState [(((4:Int),(0:Int)), ⟨.king, .white⟩),
           (((4:Int),(7:Int)), ⟨.king, .black⟩)] .white [] ⟨none, none⟩

/-- White king e1 fused with a rook (King Fusion Table entry), black king
a8; white to move.  The rook-like king move e1→e3 exercises the fused-king
special movement branch: the teleport and turn flip succeed, but the Move
Record annotation reads the stale virtual board (e3 empty before the move)
and throws, so `movePiece` falls into the fallback branch and returns the
`false` sentinel with the primary position already mutated. -/
def c4KState : FusionState :=
  mkState [(((4:Int),(0:Int)), ⟨.king, .white⟩),
           (((0:Int),(7:Int)), ⟨.king, .black⟩)] .white [] ⟨some .rook, none⟩

/-- White king e1, white rook e2, black rook e8, black king a8; the e2 rook
is pinned, so e2→a2 moves into check. -/
def c4WitnessState : FusionState :=
  mkState [(((4:Int),(0:Int)), ⟨.king, .white⟩),
           (((4:Int),(1:Int)), ⟨.rook, .white⟩),
           (((4:Int),(7:Int)), ⟨.rook, .black⟩),
           (((0:Int),(7:Int)), ⟨.king, .black⟩)] .white [] ⟨none, none⟩

/-- White bishop c1 fused as a knight, black knight d2 fused as a pawn,
white king h1, black king a8; white to move.  Bxd2 is a capture where the
capturer's secondary type (knight) equals the captured piece's primary type
(knight). -/
def c5State : FusionState :=
  mkState [(((2:Int),(0:Int)), ⟨.bishop, .white⟩),
           (((3:Int),(1:Int)), ⟨.knight, .black⟩),
           (((7:Int),(0:Int)), ⟨.king, .white⟩),
           (((0:Int),(7:Int)), ⟨.king, .black⟩)] .white
          [(((2:Int),(0:Int)), .knight), (((3:Int),(1:Int)), .pawn)] ⟨none, none⟩

/-- White queen d1, black pawn d7, white king a1, black king h8; Qxd7 is a
same-class capture (queen takes pawn). -/
def c5WitnessState : FusionState :=
  mkState [(((3:Int),(0:Int)), ⟨.queen, .white⟩),
           (((3:Int),(6:Int)), ⟨.pawn, .black⟩),
           (((0:Int),(0:Int)), ⟨.king, .white⟩),
           (((7:Int),(7:Int)), ⟨.king, .black⟩)] .white [] ⟨none, none⟩

/-- White rook a1, black bishop a4, white king h1, black king g8; Rxa4 is a
rook↔bishop cross-capture (the black king stands off the a4-queen's lines,
so the resulting position is not check). -/
def c6State : FusionState :=
  mkState [(((0:Int),(0:Int)), ⟨.rook, .white⟩),
           (((0:Int),(3:Int)), ⟨.bishop, .black⟩),
           (((7:Int),(0:Int)), ⟨.king, .white⟩),
           (((6:Int),(7:Int)), ⟨.king, .black⟩)] .white [] ⟨none, none⟩

/-- As `c3State` but the white king already fused with a queen. -/
def c7State : FusionState :=
  mkState [(((4:Int),(0:Int)), ⟨.king, .white⟩),
           (((3:Int),(1:Int)), ⟨.rook, .black⟩),
           (((0:Int),(7:Int)), ⟨.king, .black⟩)] .white [] ⟨some .queen, none⟩

/-- White knight b1, black bishop c3, white king h1, black king a8; Nxc3
is an ordinary fusing capture (and a strength tie bishop/knight). -/
def c8State : FusionState :=
  mkState [(((1:Int),(0:Int)), ⟨.knight, .white⟩),
           (((2:Int),(2:Int)), ⟨.bishop, .black⟩),
           (((7:Int),(0:Int)), ⟨.king, .white⟩),
           (((0:Int),(7:Int)), ⟨.king, .black⟩)] .white [] ⟨none, none⟩

/-- White knight c3 fused as a bishop, kings on h1/a8.  The knight does not
attack e5 but its secondary bishop capability does. -/
def c10State : FusionState :=
  mkState [(((2:Int),(2:Int)), ⟨.knight, .white⟩),
           (((7:Int),(0:Int)), ⟨.king, .white⟩),
           (((0:Int),(7:Int)), ⟨.king, .black⟩)] .white
          [(((2:Int),(2:Int)), .bishop)] ⟨none, none⟩

/-! ## Auxiliary lemmas about the Fusion Map and King Fusion Table -/

theorem objGet_objSet_self (m : FusedMap) (s : Square) (v : PieceType) :
    objGet (objSet m s v) s = some v := by
  induction m with
  | nil => simp [objGet, objSet]
  | cons e rest ih =>
    by_cases h : e.1 = s
    · simp [objGet, objSet, h, List.find?]
    · simpa [objGet, objSet, h, List.find?] using ih

theorem objGet_objSet_ne (m : FusedMap) (s s' : Square) (v : PieceType) (h : s ≠ s') :
    objGet (objSet m s' v) s = objGet m s := by
  induction m with
  | nil => simp [objGet, objSet, List.find?, Ne.symm h]
  | cons e rest ih =>
    by_cases he : e.1 = s' <;> by_cases hes : e.1 = s <;>
      simp_all [objGet, objSet, List.find?]

theorem objGet_objDelete_self (m : FusedMap) (s : Square) :
    objGet (objDelete m s) s = none := by
  induction m with
  | nil => simp [objGet, objDelete]
  | cons e rest ih =>
    by_cases h : e.1 = s <;> simp_all [objGet, objDelete, List.find?]

theorem objGet_objDelete_ne (m : FusedMap) (s s' : Square) (h : s ≠ s') :
    objGet (objDelete m s') s = objGet m s := by
  induction m with
  | nil => simp [objGet, objDelete]
  | cons e rest ih =>
    by_cases he : e.1 = s' <;> by_cases hes : e.1 = s <;>
      simp_all [objGet, objDelete, List.find?]

theorem foldl_const_of_no_key (f t : Square) (l : List (Square × PieceType))
    (acc : FusedMap) (h : ∀ e ∈ l, e.1 ≠ f) :
    l.foldl (fun acc e => if e.1 = f then objSet (objDelete acc f) t e.2 else acc) acc = acc := by
  induction l generalizing acc with
  | nil => rfl
  | cons e rest ih =>
    have he : e.1 ≠ f := h e (List.mem_cons_self e rest)
    simp only [List.foldl_cons, if_neg he]
    exact ih acc fun e' he' => h e' (List.mem_cons_of_mem e he')

theorem objGet_none_of_forall (m : FusedMap) (s : Square) (h : objGet m s = none) :
    ∀ e ∈ m, e.1 ≠ s := by
  intro e he
  induction m with
  | nil => cases he
  | cons e' rest ih =>
    by_cases h' : e'.1 = s
    · simp [objGet, List.find?, h'] at h
    · rcases List.mem_cons.mp he with rfl | hm
      · exact h'
      · exact ih (by simpa [objGet, List.find?, h'] using h) hm

theorem updateMovementF_of_none (m : FusedMap) (f t : Square) (h : objGet m f = none) :
    updateMovementF m f t = m :=
  foldl_const_of_no_key f t m m (objGet_none_of_forall m f h)

theorem kfGet_kfSet_ne (k : KingFused) (c c' : Color) (v : PieceType) (h : c ≠ c') :
    kfGet (kfSet k c' v) c = kfGet k c := by
  cases c <;> cases c' <;> simp_all [kfGet, kfSet]

theorem bGet_bPut_self (b : Board) (s : Square) (p : Piece) :
    bGet (bPut b s p) s = some p := by
  simp [bGet, bPut, List.find?]

/-! ## Lemmas about the branch functions of `movePiece` -/

theorem convertToFusionSANE_cases (S : FusionState) (m : MoveDesc) (S' : FusionState)
    (h : convertToFusionSANE S m = some S') :
    S' = S ∨ S' = { S with virtualBoard := updateVirtualBoard S.primary S.fused } := by
  unfold convertToFusionSANE at h
  repeat' first | split at h | dsimp only at h
  all_goals cases h
  all_goals first | exact .inl rfl | exact .inr rfl

theorem convertToFusionSANE_kingFused (S : FusionState) (m : MoveDesc) (S' : FusionState)
    (h : convertToFusionSANE S m = some S') : S'.kingFused = S.kingFused := by
  rcases convertToFusionSANE_cases S m S' h with h2 | h2 <;> rw [h2]

theorem finishStd_ok_spec (S : FusionState) (f t : Square) (m : MoveDesc)
    (r : MoveOutcome × FusionState) (h : finishStd S f t m = .ok r) :
    r.1 = .success m ∧ r.2.kingFused = S.kingFused ∧ r.2.primary = S.primary ∧
    r.2.fused = updateMovementF S.fused f t := by
  unfold finishStd at h
  dsimp only at h
  split at h
  · cases h
  · rename_i S3 hS3
    injection h with h
    subst h
    rcases convertToFusionSANE_cases _ _ _ hS3 with h2 | h2 <;> subst h2 <;>
      exact ⟨rfl, rfl, rfl, rfl⟩

theorem finishStd_err_kingFused (S : FusionState) (f t : Square) (m : MoveDesc)
    (S' : FusionState) (h : finishStd S f t m = .error S') : S'.kingFused = S.kingFused := by
  unfold finishStd at h
  dsimp only at h
  split at h
  · injection h with h
    subst h
    rfl
  · cases h

theorem kfSet_preserves_queen (k : KingFused) (c c' : Color) (v : PieceType)
    (hq : kfGet k c = some .queen) (hne : kfGet k c' ≠ some .queen) :
    kfGet (kfSet k c' v) c = some .queen := by
  by_cases hc : c = c'
  · exact absurd (hc ▸ hq) hne
  · rw [kfGet_kfSet_ne _ _ _ _ hc]
    exact hq

theorem successPath_ok_kingFused_of_queen (S2 : FusionState) (f t : Square)
    (srcO tgtO vSrcO vTgtO : Option Piece) (m : MoveDesc) (c : Color)
    (r : MoveOutcome × FusionState)
    (h : successPath S2 f t srcO tgtO vSrcO vTgtO m = .ok r)
    (hq : kfGet S2.kingFused c = some .queen) :
    kfGet r.2.kingFused c = some .queen := by
  unfold successPath at h
  repeat' first | split at h | dsimp only at h
  all_goals first
    | (rw [(finishStd_ok_spec _ _ _ _ _ h).2.1]; exact hq)
    | (injection h with h; subst h;
       exact kfSet_preserves_queen _ _ _ _ hq (by simp_all))
    | cases h

theorem successPath_err_kingFused (S2 : FusionState) (f t : Square)
    (srcO tgtO vSrcO vTgtO : Option Piece) (m : MoveDesc) (S' : FusionState)
    (h : successPath S2 f t srcO tgtO vSrcO vTgtO m = .error S') :
    S'.kingFused = S2.kingFused := by
  unfold successPath at h
  repeat' first | split at h | dsimp only at h
  all_goals first
    | (rw [finishStd_err_kingFused _ _ _ _ _ h])
    | (injection h with h; subst h; rfl)
    | cases h

theorem innerCatch_kingFused (S : FusionState) (f t : Square) (o : Option Piece) :
    (innerCatch S f t o).2.kingFused = S.kingFused := by
  unfold innerCatch
  repeat' first | split | dsimp only
  all_goals first
    | rfl
    | (rename_i hS5; rw [convertToFusionSANE_kingFused _ _ _ hS5])

theorem kingFusedPath_kingFused (S : FusionState) (f t : Square) (src : Piece)
    (kt : PieceType) : (kingFusedPath S f t src kt).2.kingFused = S.kingFused := by
  unfold kingFusedPath
  repeat' first | split | dsimp only
  all_goals first
    | rfl
    | exact innerCatch_kingFused _ _ _ _
    | (rename_i hS3; rw [convertToFusionSANE_kingFused _ _ _ hS3])

theorem catchOuter_kingFused (S : FusionState) (f t : Square) (o : Option Piece) :
    (catchOuter S f t o).2.kingFused = S.kingFused := by
  unfold catchOuter
  repeat' first | split | dsimp only
  all_goals first
    | exact innerCatch_kingFused S f t _
    | apply kingFusedPath_kingFused

/-- The virtual board inherits the primary side to move. -/
theorem updateVirtualBoard_turn (p : Position) (fused : FusedMap) :
    (updateVirtualBoard p fused).turn = p.turn := rfl

/-! ## Claim theorems -/

/-- C2, amended: away from the castling special case, for a move whose
source square is occupied and whose forced virtual board still holds the
mover's king, `_willJeopardiseKing` rejects iff the virtual representation
or the opponent-king-fusion simulation reports the moving side's king
attacked post-move; the primary representation is not consulted by the
validator (it is handled elsewhere in `movePiece`). -/
theorem c2_validator_two_representations (S : FusionState) (f t : Square)
    (vS src : Piece) (ks : Square)
    (hcastle : castleTriggerE (updateVirtualBoard S.primary S.fused) f t = some false)
    (hvs : bGet (updateVirtualBoard S.primary S.fused).board f = some vS)
    (hsrc : bGet S.primary.board f = some src)
    (hks : findKingB (forcedBoard (updateVirtualBoard S.primary S.fused).board f t)
             S.primary.turn = some ks) :
    willJeopardiseKing S f t =
      some (specVirtualJeopardy S f t || specKingFusionSimJeopardy S f t) := by
  have hks2 : findKingB (bPut (bRemove (updateVirtualBoard S.primary S.fused).board f) t vS)
      S.primary.turn = some ks := by
    have h := hks
    unfold forcedBoard at h
    rw [hvs] at h
    exact h
  simp only [willJeopardiseKing, specVirtualJeopardy, specKingFusionSimJeopardy, forcedBoard,
    hcastle, hvs, hks2, updateVirtualBoard_turn]
  rcases Bool.eq_false_or_eq_true (posIsAttacked
      (bPut (bRemove (updateVirtualBoard S.primary S.fused).board f) t vS)
      ks S.primary.turn.other) with hA | hA
  · simp only [hA, if_true, Bool.true_or]
  · simp only [hA, Bool.false_or, isKingChecking, posIsCheck]
    rw [if_neg (by simp)]
    cases hkf : kfGet S.kingFused S.primary.turn.other with
    | none => rfl
    | some kt =>
      cases hok : findKingB S.primary.board S.primary.turn.other with
      | none => rfl
      | some oks => simp only [hsrc]

/-- C2 (witness): the amended validator equation at the concrete move
e2→f3 of `c2State`. -/
theorem c2_validator_two_representations_witness :
    willJeopardiseKing c2State ((4:Int),(1:Int)) ((5:Int),(2:Int)) =
      some (specVirtualJeopardy c2State ((4:Int),(1:Int)) ((5:Int),(2:Int)) ||
            specKingFusionSimJeopardy c2State ((4:Int),(1:Int)) ((5:Int),(2:Int))) :=
  c2_validator_two_representations c2State ((4:Int),(1:Int)) ((5:Int),(2:Int))
    ⟨.bishop, .white⟩ ⟨.bishop, .white⟩ ((4:Int),(0:Int))
    (by decide) (by decide) (by decide) (by decide)

/-- C2 (counterexample): on `c2State`, moving the pinned bishop e2→d3 is
accepted by `_willJeopardiseKing` although the primary representation
reports the moving side's king attacked post-move — the claimed
three-representation equivalence fails because the validator never
consults the primary position. -/
theorem c2_counterexample :
    willJeopardiseKing c2State ((4:Int),(1:Int)) ((3:Int),(2:Int)) = some false ∧
    specPrimaryJeopardy c2State ((4:Int),(1:Int)) ((3:Int),(2:Int)) = true ∧
    specJeopardy c2State ((4:Int),(1:Int)) ((3:Int),(2:Int)) = true := by decide

/-- C3 (code bug): on `c3State`, Kxd2 succeeds and creates the King Fusion
Table entry, but no Move Record is appended to the history (the king-fusion
branch returns without calling `updateHistory`). -/
theorem c3_king_capture_skips_history :
    (movePiece c3State ((4:Int),(0:Int)) ((3:Int),(1:Int))).1.isSuccess = true ∧
    kfGet (movePiece c3State ((4:Int),(0:Int)) ((3:Int),(1:Int))).2.kingFused .white
      = some .rook ∧
    (movePiece c3State ((4:Int),(0:Int)) ((3:Int),(1:Int))).2.history = [] := by decide

/-- C4 (counterexample): two refutations.  First, a `movePiece` request
whose source square is empty raises an exception to the caller (TypeError
on `sourcesquare.type` in the fallback branch) instead of returning the
`false` sentinel.  Second, rejection is not atomic: on `c4KState` the
fused-king special move e1→e3 teleports the king and flips the side to
move, then the Move Record annotation throws on the stale virtual board
and the fallback returns the `false` sentinel with the primary position
mutated (king on e3, black to move). -/
theorem c4_counterexample :
    (bGet c4State.primary.board ((2:Int),(2:Int)) = none ∧
      (movePiece c4State ((2:Int),(2:Int)) ((2:Int),(3:Int))).1 = .thrown) ∧
    (c4KState.primary.turn = .white ∧
      bGet c4KState.primary.board ((4:Int),(2:Int)) = none ∧
      (movePiece c4KState ((4:Int),(0:Int)) ((4:Int),(2:Int))).1 = .rejected ∧
      (movePiece c4KState ((4:Int),(0:Int)) ((4:Int),(2:Int))).2.primary.turn = .black ∧
      bGet (movePiece c4KState ((4:Int),(0:Int)) ((4:Int),(2:Int))).2.primary.board
        ((4:Int),(2:Int)) = some ⟨.king, .white⟩) := by decide

/-- C5 (counterexample): on `c5State`, the capturing bishop's secondary type
(knight) equals the captured piece's primary type (knight) — one of the
four claimed combinations — yet the capture updates the destination's
Fusion Map entry from pawn to knight. -/
theorem c5_counterexample :
    (movePiece c5State ((2:Int),(0:Int)) ((3:Int),(1:Int))).1.isSuccess = true ∧
    (bGet (updateVirtualBoard c5State.primary c5State.fused).board ((2:Int),(0:Int))).map
        Piece.ptype = some .knight ∧
    (bGet c5State.primary.board ((3:Int),(1:Int))).map Piece.ptype = some .knight ∧
    objGet c5State.fused ((3:Int),(1:Int)) = some .pawn ∧
    objGet (movePiece c5State ((2:Int),(0:Int)) ((3:Int),(1:Int))).2.fused ((3:Int),(1:Int))
      = some .knight := by decide

/-- C6 (counterexample): on `c6State`, Rxa4 (rook takes bishop) promotes
the capturer to a queen on the primary board but, contrary to the claim,
also records a Fusion Map entry `a4 ↦ bishop`. -/
theorem c6_counterexample :
    (movePiece c6State ((0:Int),(0:Int)) ((0:Int),(3:Int))).1.isSuccess = true ∧
    (bGet c6State.primary.board ((0:Int),(0:Int))).map Piece.ptype = some .rook ∧
    (bGet c6State.primary.board ((0:Int),(3:Int))).map Piece.ptype = some .bishop ∧
    bGet (movePiece c6State ((0:Int),(0:Int)) ((0:Int),(3:Int))).2.primary.board
        ((0:Int),(3:Int)) = some ⟨.queen, .white⟩ ∧
    objGet (movePiece c6State ((0:Int),(0:Int)) ((0:Int),(3:Int))).2.fused ((0:Int),(3:Int))
      = some .bishop := by decide

/-- C4, amended: for a synchronized state, a move rejected by the Legality
Validator (the jeopardy test, which runs before any mutation) returns the
`false` sentinel with the whole compound state (primary position, Fusion
Map, King Fusion Table, virtual board, history) unchanged.  Rejections
arising after the validator are not atomic — a fused-king special move
whose Move Record annotation throws returns the sentinel with the king
already teleported and the turn flipped — and a request from an empty
source square raises an exception (both in the counterexample). -/
theorem c4_jeopardy_reject_atomic (S : FusionState) (f t : Square)
    (hsync : S.virtualBoard = updateVirtualBoard S.primary S.fused)
    (hj : willJeopardiseKing S f t = some true) :
    movePiece S f t = (.rejected, S) := by
  have hS1 : ({ S with virtualBoard := updateVirtualBoard S.primary S.fused } : FusionState)
      = S := by rw [← hsync]
  unfold movePiece
  dsimp only
  rw [hS1, hj]

/-- C4 (witness): the pinned rook move e2→a2 on `c4WitnessState` is
rejected by the jeopardy test with the sentinel and an unchanged state. -/
theorem c4_jeopardy_reject_atomic_witness :
    movePiece c4WitnessState ((4:Int),(1:Int)) ((0:Int),(1:Int)) =
      (.rejected, c4WitnessState) :=
  c4_jeopardy_reject_atomic c4WitnessState ((4:Int),(1:Int)) ((0:Int),(1:Int))
    (by rfl) (by decide)

/-- C7: once a colour's King Fusion Table entry is the maximal (queen)
type, no `movePiece` call changes it — every branch of the move executor
preserves the entry, and the only write is guarded by the queen test. -/
theorem c7_king_fusion_ceiling (S : FusionState) (f t : Square) (c : Color)
    (hq : kfGet S.kingFused c = some .queen) :
    kfGet (movePiece S f t).2.kingFused c = some .queen := by
  unfold movePiece
  try dsimp only
  cases hw : willJeopardiseKing
      { S with virtualBoard := updateVirtualBoard S.primary S.fused } f t with
  | none => exact hq
  | some b =>
    cases b with
    | true => exact hq
    | false =>
      cases hc : chessMove S.primary f t with
      | some mp =>
        obtain ⟨m, p2⟩ := mp
        dsimp only
        split
        · rename_i r hsp
          exact successPath_ok_kingFused_of_queen _ _ _ _ _ _ _ _ _ _ hsp hq
        · rename_i Se hsp
          rw [catchOuter_kingFused, successPath_err_kingFused _ _ _ _ _ _ _ _ _ hsp]
          exact hq
      | none =>
        try dsimp only
        rw [catchOuter_kingFused]
        exact hq

/-- C7 (witness): on `c7State` (white king already fused with a queen),
Kxd2 still succeeds, appends a Move Record, and the King Fusion Table
entry stays the queen type. -/
theorem c7_king_fusion_ceiling_witness :
    (movePiece c7State ((4:Int),(0:Int)) ((3:Int),(1:Int))).1.isSuccess = true ∧
    (movePiece c7State ((4:Int),(0:Int)) ((3:Int),(1:Int))).2.history.length = 1 ∧
    kfGet (movePiece c7State ((4:Int),(0:Int)) ((3:Int),(1:Int))).2.kingFused .white
      = some .queen :=
  ⟨by decide, by decide,
    c7_king_fusion_ceiling c7State ((4:Int),(0:Int)) ((3:Int),(1:Int)) .white (by decide)⟩

/-- C5, amended: a primary-path capture by a non-king piece whose Move
Record annotation succeeds creates no Fusion Map entry (only the
source-entry migration of `updateMovement` happens) when the guard
implemented by the code holds: captured primary type = capturer primary
type, or captured virtual type = capturer virtual type, or the capturer is
a queen by primary or secondary type and the captured piece is a
rook/bishop/pawn by primary or secondary type.  (Cross matches between one
piece's primary and the other's secondary type are not covered by the
guard — see the counterexample.) -/
theorem c5_same_type_guard (S : FusionState) (f t : Square)
    (src tgt vS vT : Piece) (m : MoveDesc) (p2 : Position)
    (hj : willJeopardiseKing { S with virtualBoard := updateVirtualBoard S.primary S.fused }
            f t = some false)
    (hmv : chessMove S.primary f t = some (m, p2))
    (hsrc : bGet S.primary.board f = some src)
    (htgt : bGet S.primary.board t = some tgt)
    (hvs : bGet (updateVirtualBoard S.primary S.fused).board f = some vS)
    (hvt : bGet (updateVirtualBoard S.primary S.fused).board t = some vT)
    (hk : ¬ src.ptype = .king)
    (hguard : (decide (src.ptype = tgt.ptype) || decide (vS.ptype = vT.ptype) ||
        (pieceIs src vS .queen &&
          (pieceIs tgt vT .rook || pieceIs tgt vT .bishop || pieceIs tgt vT .pawn))) = true)
    (hsan : (convertToFusionSANE
        { primary := p2, fused := updateMovementF S.fused f t,
          kingFused := S.kingFused, history := S.history,
          virtualBoard := updateVirtualBoard p2 (updateMovementF S.fused f t) } m).isSome
        = true) :
    (movePiece S f t).1.isSuccess = true ∧
    (movePiece S f t).2.fused = updateMovementF S.fused f t := by
  obtain ⟨S3, hS3⟩ := Option.isSome_iff_exists.mp hsan
  unfold movePiece
  try dsimp only
  rw [hj, hmv, hsrc, htgt, hvs, hvt]
  unfold successPath
  try dsimp only
  rw [if_neg hk, if_pos hguard]
  unfold finishStd
  try dsimp only
  rw [hS3]
  refine ⟨rfl, ?_⟩
  rcases convertToFusionSANE_cases _ _ _ hS3 with h2 | h2 <;> subst h2 <;> rfl

/-- C5 (witness): queen takes pawn on `c5WitnessState` — a same-class
capture — succeeds and leaves the Fusion Map in its migrated (here:
unchanged, empty) form. -/
theorem c5_same_type_guard_witness :
    (movePiece c5WitnessState ((3:Int),(0:Int)) ((3:Int),(6:Int))).1.isSuccess = true ∧
    (movePiece c5WitnessState ((3:Int),(0:Int)) ((3:Int),(6:Int))).2.fused =
      updateMovementF c5WitnessState.fused ((3:Int),(0:Int)) ((3:Int),(6:Int)) :=
  c5_same_type_guard c5WitnessState ((3:Int),(0:Int)) ((3:Int),(6:Int))
    ⟨.queen, .white⟩ ⟨.pawn, .black⟩ ⟨.queen, .white⟩ ⟨.pawn, .black⟩
    ⟨.white, .queen, ((3:Int),(0:Int)), ((3:Int),(6:Int)), some .pawn, true, "qd7"⟩
    ⟨bPut (bRemove c5WitnessState.primary.board ((3:Int),(0:Int))) ((3:Int),(6:Int))
        ⟨.queen, .white⟩, .black, some "qd7"⟩
    (by decide) (by decide) (by decide) (by decide) (by decide) (by decide)
    (by decide) (by decide) (by decide)

/-- C6, amended: a primary-path rook↔bishop cross-capture (by primary or
secondary type, outside the same-type guard) whose Move Record annotation
succeeds promotes the capturing piece in place to a queen on the primary
position, and — contrary to the claim — also records a Fusion Map entry at
the destination holding the stronger of the captured piece's primary and
secondary types. -/
theorem c6_rook_bishop_promotes (S : FusionState) (f t : Square)
    (src tgt vS vT : Piece) (m : MoveDesc) (p2 : Position)
    (hj : willJeopardiseKing { S with virtualBoard := updateVirtualBoard S.primary S.fused }
            f t = some false)
    (hmv : chessMove S.primary f t = some (m, p2))
    (hsrc : bGet S.primary.board f = some src)
    (htgt : bGet S.primary.board t = some tgt)
    (hvs : bGet (updateVirtualBoard S.primary S.fused).board f = some vS)
    (hvt : bGet (updateVirtualBoard S.primary S.fused).board t = some vT)
    (hk : ¬ src.ptype = .king)
    (hft : f ≠ t)
    (hguard : (decide (src.ptype = tgt.ptype) || decide (vS.ptype = vT.ptype) ||
        (pieceIs src vS .queen &&
          (pieceIs tgt vT .rook || pieceIs tgt vT .bishop || pieceIs tgt vT .pawn))) = false)
    (hrb : ((pieceIs src vS .rook && pieceIs tgt vT .bishop) ||
            (pieceIs src vS .bishop && pieceIs tgt vT .rook)) = true)
    (hsan : (convertToFusionSANE
        { primary := { board := bPut p2.board t ⟨.queen, src.color⟩, turn := p2.turn,
                       lastSan := none },
          fused := objSet (objDelete (objDelete (objDelete (objDelete S.fused f) t) t) f) t
                     (pickStrongerPiece tgt.ptype vT.ptype),
          kingFused := S.kingFused, history := S.history,
          virtualBoard := updateVirtualBoard
            { board := bPut p2.board t ⟨.queen, src.color⟩, turn := p2.turn, lastSan := none }
            (objSet (objDelete (objDelete (objDelete (objDelete S.fused f) t) t) f) t
              (pickStrongerPiece tgt.ptype vT.ptype)) } m).isSome = true) :
    (movePiece S f t).1.isSuccess = true ∧
    bGet (movePiece S f t).2.primary.board t = some ⟨.queen, src.color⟩ ∧
    objGet (movePiece S f t).2.fused t =
      some (pickStrongerPiece tgt.ptype vT.ptype) := by
  obtain ⟨S3, hS3⟩ := Option.isSome_iff_exists.mp hsan
  unfold movePiece
  try dsimp only
  rw [hj, hmv, hsrc, htgt, hvs, hvt]
  unfold successPath
  try dsimp only
  rw [if_neg hk, if_neg (by simp [hguard]), if_pos hrb]
  unfold finishStd
  try dsimp only
  have hf5 : objGet (objSet (objDelete (objDelete (objDelete (objDelete S.fused f) t) t) f)
      t (pickStrongerPiece tgt.ptype vT.ptype)) f = none := by
    rw [objGet_objSet_ne _ _ _ _ hft, objGet_objDelete_self]
  rw [updateMovementF_of_none _ _ _ hf5, hS3]
  rcases convertToFusionSANE_cases _ _ _ hS3 with h2 | h2 <;> subst h2 <;>
    exact ⟨rfl, bGet_bPut_self _ _ _, objGet_objSet_self _ _ _⟩

/-- C6 (witness): the amended rook↔bishop behaviour at the concrete
capture of `c6State`. -/
theorem c6_rook_bishop_promotes_witness :
    (movePiece c6State ((0:Int),(0:Int)) ((0:Int),(3:Int))).1.isSuccess = true ∧
    bGet (movePiece c6State ((0:Int),(0:Int)) ((0:Int),(3:Int))).2.primary.board
        ((0:Int),(3:Int)) = some ⟨.queen, Piece.color ⟨.rook, .white⟩⟩ ∧
    objGet (movePiece c6State ((0:Int),(0:Int)) ((0:Int),(3:Int))).2.fused ((0:Int),(3:Int)) =
      some (pickStrongerPiece PieceType.bishop PieceType.bishop) :=
  c6_rook_bishop_promotes c6State ((0:Int),(0:Int)) ((0:Int),(3:Int))
    ⟨.rook, .white⟩ ⟨.bishop, .black⟩ ⟨.rook, .white⟩ ⟨.bishop, .black⟩
    ⟨.white, .rook, ((0:Int),(0:Int)), ((0:Int),(3:Int)), some .bishop, true, "ra4"⟩
    ⟨bPut (bRemove c6State.primary.board ((0:Int),(0:Int))) ((0:Int),(3:Int))
        ⟨.rook, .white⟩, .black, some "ra4"⟩
    (by decide) (by decide) (by decide) (by decide) (by decide) (by decide)
    (by decide) (by decide) (by decide) (by decide) (by decide)

/-- C8: an ordinary successful fusing capture (non-king capturer, outside
the same-type guard and the rook↔bishop case, with the Move Record
annotation succeeding) sets the destination's Fusion Map entry to
`pickStrongerPiece` of the captured piece's primary and secondary types;
`pickStrongerPiece` returns the maximum under `_getPieceValue` and keeps
its first argument (the captured primary type) on ties, and the value
ordering is king > queen > rook > bishop = knight > pawn. -/
theorem c8_fusion_strength (S : FusionState) (f t : Square)
    (src tgt vS vT : Piece) (m : MoveDesc) (p2 : Position)
    (hj : willJeopardiseKing { S with virtualBoard := updateVirtualBoard S.primary S.fused }
            f t = some false)
    (hmv : chessMove S.primary f t = some (m, p2))
    (hsrc : bGet S.primary.board f = some src)
    (htgt : bGet S.primary.board t = some tgt)
    (hvs : bGet (updateVirtualBoard S.primary S.fused).board f = some vS)
    (hvt : bGet (updateVirtualBoard S.primary S.fused).board t = some vT)
    (hk : ¬ src.ptype = .king)
    (hft : f ≠ t)
    (hguard : (decide (src.ptype = tgt.ptype) || decide (vS.ptype = vT.ptype) ||
        (pieceIs src vS .queen &&
          (pieceIs tgt vT .rook || pieceIs tgt vT .bishop || pieceIs tgt vT .pawn))) = false)
    (hrb : ((pieceIs src vS .rook && pieceIs tgt vT .bishop) ||
            (pieceIs src vS .bishop && pieceIs tgt vT .rook)) = false)
    (hsan : (convertToFusionSANE
        { primary := p2,
          fused := objSet (objDelete (objDelete S.fused t) f) t
                     (pickStrongerPiece tgt.ptype vT.ptype),
          kingFused := S.kingFused, history := S.history,
          virtualBoard := updateVirtualBoard p2
            (objSet (objDelete (objDelete S.fused t) f) t
              (pickStrongerPiece tgt.ptype vT.ptype)) } m).isSome = true) :
    ((movePiece S f t).1.isSuccess = true ∧
      objGet (movePiece S f t).2.fused t =
        some (pickStrongerPiece tgt.ptype vT.ptype)) ∧
    (∀ p1 p2 : PieceType,
      getPieceValue (pickStrongerPiece p1 p2) = max (getPieceValue p1) (getPieceValue p2) ∧
      (getPieceValue p1 = getPieceValue p2 → pickStrongerPiece p1 p2 = p1)) ∧
    (getPieceValue .king > getPieceValue .queen ∧
      getPieceValue .queen > getPieceValue .rook ∧
      getPieceValue .rook > getPieceValue .bishop ∧
      getPieceValue .bishop = getPieceValue .knight ∧
      getPieceValue .knight > getPieceValue .pawn) := by
  obtain ⟨S3, hS3⟩ := Option.isSome_iff_exists.mp hsan
  refine ⟨?_, ?_, by decide⟩
  · unfold movePiece
    try dsimp only
    rw [hj, hmv, hsrc, htgt, hvs, hvt]
    unfold successPath
    try dsimp only
    rw [if_neg hk, if_neg (by simp [hguard]), if_neg (by simp [hrb])]
    unfold finishStd
    try dsimp only
    have hf5 : objGet (objSet (objDelete (objDelete S.fused t) f)
        t (pickStrongerPiece tgt.ptype vT.ptype)) f = none := by
      rw [objGet_objSet_ne _ _ _ _ hft, objGet_objDelete_self]
    rw [updateMovementF_of_none _ _ _ hf5, hS3]
    rcases convertToFusionSANE_cases _ _ _ hS3 with h2 | h2 <;> subst h2 <;>
      exact ⟨rfl, objGet_objSet_self _ _ _⟩
  · intro p1 p2
    constructor
    · cases p1 <;> cases p2 <;> simp [pickStrongerPiece, getPieceValue]
    · intro h
      cases p1 <;> cases p2 <;> simp_all [pickStrongerPiece, getPieceValue]

/-- C8 (witness): knight takes bishop on `c8State` records the bishop (a
bishop/knight strength tie, resolved to the first argument — the captured
primary type). -/
theorem c8_fusion_strength_witness :
    ((movePiece c8State ((1:Int),(0:Int)) ((2:Int),(2:Int))).1.isSuccess = true ∧
      objGet (movePiece c8State ((1:Int),(0:Int)) ((2:Int),(2:Int))).2.fused ((2:Int),(2:Int)) =
        some (pickStrongerPiece PieceType.bishop PieceType.bishop)) ∧
    (∀ p1 p2 : PieceType,
      getPieceValue (pickStrongerPiece p1 p2) = max (getPieceValue p1) (getPieceValue p2) ∧
      (getPieceValue p1 = getPieceValue p2 → pickStrongerPiece p1 p2 = p1)) ∧
    (getPieceValue .king > getPieceValue .queen ∧
      getPieceValue .queen > getPieceValue .rook ∧
      getPieceValue .rook > getPieceValue .bishop ∧
      getPieceValue .bishop = getPieceValue .knight ∧
      getPieceValue .knight > getPieceValue .pawn) :=
  c8_fusion_strength c8State ((1:Int),(0:Int)) ((2:Int),(2:Int))
    ⟨.knight, .white⟩ ⟨.bishop, .black⟩ ⟨.knight, .white⟩ ⟨.bishop, .black⟩
    ⟨.white, .knight, ((1:Int),(0:Int)), ((2:Int),(2:Int)), some .bishop, true, "nc3"⟩
    ⟨bPut (bRemove c8State.primary.board ((1:Int),(0:Int))) ((2:Int),(2:Int))
        ⟨.knight, .white⟩, .black, some "nc3"⟩
    (by decide) (by decide) (by decide) (by decide) (by decide) (by decide)
    (by decide) (by decide) (by decide) (by decide) (by decide)

/-- C9: `moves()` without `verbose: true` throws the "san strings are not
currently implemented" error exactly when the oracle yields at least one
candidate move (the filter callback throws on the first candidate), and
returns the empty list otherwise. -/
theorem c9_non_verbose_always_throws (S : FusionState) (sq : Option Square) :
    movesFn S false sq =
      (if oracleMoves S.primary sq = [] then .ok []
       else .error "san strings are not currently implemented") := by
  unfold movesFn
  cases h : oracleMoves S.primary sq <;> simp [movesFilter]

/-- C10: the public `isAttacked(square, colour)` of a synchronized state is
the disjunction of the primary-board attack test and the attack test on
the virtual board derived from the primary position and the Fusion Map, so
fused secondary capabilities contribute to every attack query. -/
theorem c10_isAttacked_disjunction (S : FusionState) (sq : Square) (c : Color)
    (hsync : S.virtualBoard = updateVirtualBoard S.primary S.fused) :
    FusionState.isAttacked S sq c =
      (posIsAttacked S.primary.board sq c ||
        posIsAttacked (updateVirtualBoard S.primary S.fused).board sq c) := by
  rw [FusionState.isAttacked, hsync]

/-- C10 (witness): on `c10State` the fused knight's secondary bishop
capability makes e5 attacked through the engine's attack query. -/
theorem c10_isAttacked_disjunction_witness :
    FusionState.isAttacked c10State ((4:Int),(4:Int)) .white =
      (posIsAttacked c10State.primary.board ((4:Int),(4:Int)) .white ||
        posIsAttacked (updateVirtualBoard c10State.primary c10State.fused).board
          ((4:Int),(4:Int)) .white) :=
  c10_isAttacked_disjunction c10State ((4:Int),(4:Int)) .white (by rfl)

/-! ## Auxiliary lemmas for the serialization model -/

namespace StringModel

theorem splitCh_ne_nil (sep : Char) (xs : Str) : splitCh sep xs ≠ [] := by
  induction xs with
  | nil => simp [splitCh]
  | cons c cs ih =>
    simp only [splitCh]
    cases h : splitCh sep cs with
    | nil => exact absurd h ih
    | cons u us =>
      try dsimp only
      split <;> simp

theorem splitCh_append_cons (sep : Char) (xs ys : Str) :
    splitCh sep (xs ++ sep :: ys) = splitCh sep xs ++ splitCh sep ys := by
  induction xs with
  | nil =>
    simp only [List.nil_append, splitCh]
    cases h : splitCh sep ys with
    | nil => exact absurd h (splitCh_ne_nil sep ys)
    | cons u us => simp [splitCh]
  | cons c cs ih =>
    cases h : splitCh sep cs with
    | nil => exact absurd h (splitCh_ne_nil sep cs)
    | cons u us =>
      cases hy : splitCh sep ys with
      | nil => exact absurd hy (splitCh_ne_nil sep ys)
      | cons v vs =>
        by_cases hc : c = sep <;>
          simp [splitCh, ih, h, hy, hc]

theorem splitCh_of_not_mem (sep : Char) (xs : Str) (h : sep ∉ xs) :
    splitCh sep xs = [xs] := by
  induction xs with
  | nil => rfl
  | cons c cs ih =>
    have hc : ¬ c = sep := fun hh => h (hh ▸ List.mem_cons_self c cs)
    simp only [splitCh, ih (fun hm => h (List.mem_cons_of_mem c hm)), if_neg hc]

theorem joinCh_cons_head (sep c : Char) (u : Str) (us : List Str) :
    joinCh sep ((c :: u) :: us) = c :: joinCh sep (u :: us) := by
  cases us <;> simp [joinCh]

theorem joinCh_splitCh (sep : Char) (xs : Str) : joinCh sep (splitCh sep xs) = xs := by
  induction xs with
  | nil => rfl
  | cons c cs ih =>
    simp only [splitCh]
    cases h : splitCh sep cs with
    | nil => exact absurd h (splitCh_ne_nil sep cs)
    | cons u us =>
      rw [h] at ih
      try dsimp only
      by_cases hc : c = sep
      · subst hc
        simpa [joinCh] using ih
      · rw [if_neg hc, joinCh_cons_head, ih]

theorem entryChunk_eq (e : Str × Str) : entryChunk e = entryBody e ++ [','] := by
  simp [entryChunk, entryBody]

theorem foldl_chunks (l : List (Str × Str)) (acc : Str) (h : ∀ e ∈ l, e.2 ≠ []) :
    l.foldl (fun acc e => if e.2 = [] then acc else acc ++ entryChunk e) acc
      = acc ++ (l.map entryChunk).flatten := by
  induction l generalizing acc with
  | nil => simp
  | cons e rest ih =>
    have he : ¬ e.2 = [] := h e (List.mem_cons_self e rest)
    simp only [List.foldl_cons, if_neg he, List.map_cons, List.flatten_cons]
    rw [ih _ (fun x hx => h x (List.mem_cons_of_mem e hx)), List.append_assoc]

theorem getLast?_entryChunk (e : Str × Str) : (entryChunk e).getLast? = some ',' := by
  rw [entryChunk_eq, List.getLast?_append_cons]
  rfl

theorem getLast?_flatten_chunks (l : List (Str × Str)) (hl : l ≠ []) :
    ((l.map entryChunk).flatten).getLast? = some ',' := by
  induction l with
  | nil => cases hl rfl
  | cons e rest ih =>
    cases rest with
    | nil => simpa using getLast?_entryChunk e
    | cons e2 r2 =>
      have h2 := ih (by simp)
      simp only [List.map_cons, List.flatten_cons] at h2 ⊢
      rw [List.getLast?_append_of_ne_nil]
      · exact h2
      · intro hnil
        rw [hnil] at h2
        cases h2

theorem flatten_chunks_ne_nil (l : List (Str × Str)) (hl : l ≠ []) :
    ((l.map entryChunk).flatten) ≠ [] := by
  intro h
  have h2 := getLast?_flatten_chunks l hl
  rw [h] at h2
  cases h2

theorem splitCh_flatten_chunks (l : List (Str × Str)) (h : ∀ e ∈ l, ',' ∉ entryBody e) :
    splitCh ',' ((l.map entryChunk).flatten) = l.map entryBody ++ [[]] := by
  induction l with
  | nil => rfl
  | cons e rest ih =>
    have hmain : (entryChunk e ++ ((rest.map entryChunk).flatten) : Str)
        = entryBody e ++ ',' :: ((rest.map entryChunk).flatten) := by
      rw [entryChunk_eq, List.append_assoc]
      rfl
    simp only [List.map_cons, List.flatten_cons, hmain]
    rw [splitCh_append_cons, splitCh_of_not_mem _ _ (h e (List.mem_cons_self e rest)),
      ih (fun x hx => h x (List.mem_cons_of_mem e hx))]
    rfl

theorem splitCh_body (k v : Str) (hk : '=' ∉ k) (hv : '=' ∉ v) :
    splitCh '=' (entryBody (k, v)) = [k, v] := by
  unfold entryBody
  rw [splitCh_append_cons, splitCh_of_not_mem _ _ hk, splitCh_of_not_mem _ _ hv]
  rfl

theorem entryBody_ne_nil (e : Str × Str) : entryBody e ≠ [] := by
  simp [entryBody]

theorem squareNames_facts :
    ∀ s ∈ squareNames, ' ' ∉ s ∧ ',' ∉ s ∧ '=' ∉ s ∧ 'K' ∉ s ∧ s ≠ wKs ∧ s ≠ bKs := by
  decide

theorem pieceStrs_facts :
    ∀ s ∈ pieceStrs,
      s ≠ [] ∧ ' ' ∉ s ∧ ',' ∉ s ∧ '=' ∉ s ∧ 'K' ∉ s ∧ strLower s = s := by
  decide

theorem kingKeys_facts :
    (' ' ∉ wKs ∧ ',' ∉ wKs ∧ '=' ∉ wKs ∧ 'K' ∈ wKs ∧ wKs ∉ squareNames) ∧
    (' ' ∉ bKs ∧ ',' ∉ bKs ∧ '=' ∉ bKs ∧ 'K' ∈ bKs ∧ bKs ∉ squareNames) := by
  decide

theorem validateEntry_fused (k v : Str) (hk : k ∈ squareNames) (hv : v ∈ pieceStrs) :
    validateEntry (entryBody (k, v)) = some true := by
  obtain ⟨-, -, hkeq, -, -, -⟩ := squareNames_facts k hk
  obtain ⟨-, -, -, hveq, -, hlow⟩ := pieceStrs_facts v hv
  unfold validateEntry
  rw [if_neg (entryBody_ne_nil (k, v))]
  try dsimp only
  rw [splitCh_body k v hkeq hveq]
  simp only [List.headD_cons, List.get?_cons_succ, List.get?_cons_zero]
  rw [if_pos hk, hlow, if_pos hv]

theorem validateEntry_king (k v : Str) (hk : k = wKs ∨ k = bKs) (hv : v ∈ pieceStrs) :
    validateEntry (entryBody (k, v)) = some true := by
  have hkeq : '=' ∉ k := by
    rcases hk with rfl | rfl
    · exact kingKeys_facts.1.2.2.1
    · exact kingKeys_facts.2.2.2.1
  have hknot : ¬ k ∈ squareNames := by
    rcases hk with rfl | rfl
    · exact kingKeys_facts.1.2.2.2.2
    · exact kingKeys_facts.2.2.2.2.2
  obtain ⟨-, -, -, hveq, -, -⟩ := pieceStrs_facts v hv
  unfold validateEntry
  rw [if_neg (entryBody_ne_nil (k, v))]
  try dsimp only
  rw [splitCh_body k v hkeq hveq]
  simp only [List.headD_cons, List.get?_cons_succ, List.get?_cons_zero]
  rw [if_neg hknot, if_pos (Or.symm hk)]

theorem validateEntries_all (l : List Str) (h : ∀ p ∈ l, validateEntry p = some true) :
    validateEntries l = some true := by
  induction l with
  | nil => rfl
  | cons p rest ih =>
    unfold validateEntries
    rw [h p (List.mem_cons_self p rest)]
    exact ih fun x hx => h x (List.mem_cons_of_mem p hx)

theorem objGetS_of_nodup (m : List (Str × Str)) (hnd : (m.map Prod.fst).Nodup) :
    ∀ e ∈ m, objGetS m e.1 = some e.2 := by
  induction m with
  | nil => intro e he; cases he
  | cons a rest ih =>
    intro e he
    rcases List.mem_cons.mp he with rfl | hm
    · simp [objGetS, List.find?]
    · have hne : ¬ a.1 = e.1 := by
        intro hcontra
        have : e.1 ∈ rest.map Prod.fst := List.mem_map_of_mem Prod.fst hm
        rw [← hcontra] at this
        exact (List.nodup_cons.mp hnd).1 this
      simpa [objGetS, List.find?, hne] using
        ih (List.nodup_cons.mp hnd).2 e hm

theorem objSetS_of_objGetS (m : List (Str × Str)) (k v : Str) (h : objGetS m k = some v) :
    objSetS m k v = m := by
  induction m with
  | nil => simp [objGetS] at h
  | cons a rest ih =>
    obtain ⟨a1, a2⟩ := a
    by_cases ha : a1 = k
    · subst ha
      have hv : a2 = v := by simpa [objGetS, List.find?] using h
      subst hv
      simp [objSetS]
    · have h2 : objGetS rest k = some v := by simpa [objGetS, List.find?, ha] using h
      simp [objSetS, ha, ih h2]

theorem objGetS_eq_none (m : List (Str × Str)) (k : Str) :
    objGetS m k = none ↔ ∀ e ∈ m, ¬ e.1 = k := by
  induction m with
  | nil => simp [objGetS]
  | cons a rest ih =>
    by_cases ha : a.1 = k <;>
      simp [objGetS, List.find?, ha] at ih ⊢

theorem objGetS_append_single (m : List (Str × Str)) (k0 v0 k : Str) (hne : ¬ k0 = k)
    (hm : objGetS m k = none) : objGetS (m ++ [(k0, v0)]) k = none := by
  rw [objGetS_eq_none] at hm ⊢
  intro e he
  rcases List.mem_append.mp he with h1 | h2
  · exact hm e h1
  · rw [List.mem_singleton.mp h2]
    exact hne

theorem objSetS_of_none (m : List (Str × Str)) (k v : Str) (h : objGetS m k = none) :
    objSetS m k v = m ++ [(k, v)] := by
  induction m with
  | nil => rfl
  | cons a rest ih =>
    have ha : ¬ a.1 = k := (objGetS_eq_none _ _).mp h a (List.mem_cons_self a rest)
    have h2 : objGetS rest k = none := by
      rw [objGetS_eq_none]
      exact fun e he => (objGetS_eq_none _ _).mp h e (List.mem_cons_of_mem a he)
    simp [objSetS, ha, ih h2]

theorem kingSetter_fixed (kf : List (Str × Str)) (l : List (Str × Str))
    (h : ∀ e ∈ l, objGetS kf e.1 = some e.2 ∧ '=' ∉ e.1 ∧ '=' ∉ e.2 ∧ strLower e.2 = e.2) :
    kingSetter kf (l.map entryBody) = some kf := by
  induction l with
  | nil => rfl
  | cons e rest ih =>
    obtain ⟨hg, hk1, hk2, hlow⟩ := h e (List.mem_cons_self e rest)
    obtain ⟨e1, e2⟩ := e
    simp only [List.map_cons]
    unfold kingSetter
    rw [if_neg (entryBody_ne_nil (e1, e2))]
    try dsimp only
    rw [splitCh_body e1 e2 hk1 hk2]
    simp only [List.headD_cons, List.get?_cons_succ, List.get?_cons_zero]
    rw [hlow, objSetS_of_objGetS kf e1 e2 hg]
    exact ih fun x hx => h x (List.mem_cons_of_mem _ hx)

theorem fusedSetterAux_bodies (l : List (Str × Str)) (acc : List (Str × Str))
    (hke : ∀ e ∈ l, e.1 ∈ squareNames ∧ e.2 ∈ pieceStrs)
    (hfresh : ∀ e ∈ l, objGetS acc e.1 = none)
    (hnd : (l.map Prod.fst).Nodup) (cont : List Str) :
    fusedSetterAux acc (l.map entryBody ++ cont) = fusedSetterAux (acc ++ l) cont := by
  induction l generalizing acc with
  | nil => simp
  | cons e rest ih =>
    obtain ⟨hsq, hpc⟩ := hke e (List.mem_cons_self e rest)
    obtain ⟨-, -, hkeq, -, hwK, hbK⟩ := squareNames_facts _ hsq
    obtain ⟨-, -, -, hveq, -, hlow⟩ := pieceStrs_facts _ hpc
    obtain ⟨e1, e2⟩ := e
    simp only [List.map_cons, List.cons_append]
    conv_lhs => unfold fusedSetterAux
    rw [if_neg (entryBody_ne_nil (e1, e2))]
    rw [splitCh_body e1 e2 hkeq hveq]
    simp only [List.headD_cons, List.get?_cons_succ, List.get?_cons_zero]
    rw [if_neg (by exact fun hor => hor.elim hwK hbK)]
    rw [hlow, objSetS_of_none acc e1 e2 (hfresh (e1, e2) (List.mem_cons_self _ rest))]
    have hih := ih (acc ++ [(e1, e2)])
      (fun x hx => hke x (List.mem_cons_of_mem _ hx))
      (fun x hx => objGetS_append_single acc e1 e2 x.1
        (fun hcontra => (List.nodup_cons.mp hnd).1
          (show e1 ∈ rest.map Prod.fst by
            rw [hcontra]
            exact List.mem_map_of_mem Prod.fst hx))
        (hfresh x (List.mem_cons_of_mem _ hx)))
      (List.nodup_cons.mp hnd).2
    rw [hih, List.append_assoc]
    rfl

theorem fusedSetterAux_kings (l : List (Str × Str)) (acc : List (Str × Str))
    (hk : ∀ e ∈ l, (e.1 = wKs ∨ e.1 = bKs) ∧ '=' ∉ e.1 ∧ '=' ∉ e.2) (cont : List Str) :
    fusedSetterAux acc (l.map entryBody ++ cont) = fusedSetterAux acc cont := by
  induction l with
  | nil => simp
  | cons e rest ih =>
    obtain ⟨hor, hk1, hk2⟩ := hk e (List.mem_cons_self e rest)
    obtain ⟨e1, e2⟩ := e
    simp only [List.map_cons, List.cons_append]
    conv_lhs => unfold fusedSetterAux
    rw [if_neg (entryBody_ne_nil (e1, e2))]
    rw [splitCh_body e1 e2 hk1 hk2]
    simp only [List.headD_cons]
    rw [if_pos hor]
    exact ih fun x hx => hk x (List.mem_cons_of_mem _ hx)

theorem filter_kfEntries (lf lk : List (Str × Str))
    (hf : ∀ e ∈ lf, e.1 ∈ squareNames ∧ e.2 ∈ pieceStrs)
    (hk : ∀ e ∈ lk, e.1 = wKs ∨ e.1 = bKs) :
    ((lf.map entryBody ++ lk.map entryBody) ++ [([] : Str)]).filter
        (fun p => decide ('K' ∈ p)) = lk.map entryBody := by
  rw [List.filter_append, List.filter_append]
  have h1 : (lf.map entryBody).filter (fun p => decide ('K' ∈ p)) = [] := by
    rw [List.filter_eq_nil_iff]
    intro p hp
    obtain ⟨e, he, rfl⟩ := List.mem_map.mp hp
    obtain ⟨hsq, hpc⟩ := hf e he
    obtain ⟨-, -, -, hK1, -, -⟩ := squareNames_facts _ hsq
    obtain ⟨-, -, -, -, hK2, -⟩ := pieceStrs_facts _ hpc
    simp [entryBody, hK1, hK2]
  have h2 : (lk.map entryBody).filter (fun p => decide ('K' ∈ p)) = lk.map entryBody := by
    rw [List.filter_eq_self]
    intro p hp
    obtain ⟨e, he, rfl⟩ := List.mem_map.mp hp
    rcases hk e he with h | h <;>
      simp [entryBody, h, List.mem_append, wKs, bKs]
  simp [h1, h2]

/-- C1, amended: whenever at least one Fusion Map or King Fusion Table
entry exists (well-formed square/piece tokens, no duplicate keys, an
oracle-valid position string, and an oracle that accepts the trial virtual
board), `import(export(S))` reproduces exactly the same position string,
Fusion Map and King Fusion Table.  With both tables empty the round trip
fails instead — see the counterexample. -/
theorem c1_roundtrip_nonempty (vfen : Str → List Str → Str) (S : ExportState)
    (hfen : validateFenB S.fen = true)
    (hvf : ∀ fenStr entries, validateFenB (vfen fenStr entries) = true)
    (hf : ∀ e ∈ S.fused, e.1 ∈ squareNames ∧ e.2 ∈ pieceStrs)
    (hk : ∀ e ∈ S.kingFused, (e.1 = wKs ∨ e.1 = bKs) ∧ e.2 ∈ pieceStrs)
    (hnd : (S.fused.map Prod.fst).Nodup)
    (hknd : (S.kingFused.map Prod.fst).Nodup)
    (hne : S.fused ++ S.kingFused ≠ []) :
    importGame vfen S (exportGame S) = .ok S := by
  obtain ⟨fen, fused, kf⟩ := S
  dsimp only at hf hk hnd hknd hne hfen ⊢
  have hents : ∀ e ∈ fused ++ kf, e.2 ≠ [] ∧ ' ' ∉ entryBody e ∧ ',' ∉ entryBody e := by
    intro e he
    rcases List.mem_append.mp he with h1 | h1
    · obtain ⟨hsq, hpc⟩ := hf e h1
      obtain ⟨hs1, hc1, -, -, -, -⟩ := squareNames_facts _ hsq
      obtain ⟨hnil, hs2, hc2, -, -, -⟩ := pieceStrs_facts _ hpc
      exact ⟨hnil, by simp [entryBody, hs1, hs2], by simp [entryBody, hc1, hc2]⟩
    · obtain ⟨hor, hpc⟩ := hk e h1
      obtain ⟨hnil, hs2, hc2, -, -, -⟩ := pieceStrs_facts _ hpc
      have hs1 : ' ' ∉ e.1 := by
        rcases hor with h | h <;> rw [h]
        · exact kingKeys_facts.1.1
        · exact kingKeys_facts.2.1
      have hc1 : ',' ∉ e.1 := by
        rcases hor with h | h <;> rw [h]
        · exact kingKeys_facts.1.2.1
        · exact kingKeys_facts.2.2.1
      exact ⟨hnil, by simp [entryBody, hs1, hs2], by simp [entryBody, hc1, hc2]⟩
  have hvals : ∀ e ∈ fused ++ kf, e.2 ≠ [] := fun e he => (hents e he).1
  have hexp : exportGame ⟨fen, fused, kf⟩
      = fen ++ ' ' :: ((fused ++ kf).map entryChunk).flatten := by
    unfold exportGame
    rw [foldl_chunks _ _ hvals]
    rfl
  have hflatne : ((fused ++ kf).map entryChunk).flatten ≠ [] :=
    flatten_chunks_ne_nil _ hne
  have hnospace : ' ' ∉ ((fused ++ kf).map entryChunk).flatten := by
    intro hmem
    obtain ⟨chunk, hc, hm⟩ := List.mem_flatten.mp hmem
    obtain ⟨e, he, rfl⟩ := List.mem_map.mp hc
    rw [entryChunk_eq] at hm
    rcases List.mem_append.mp hm with h1 | h1
    · exact (hents e he).2.1 h1
    · simp at h1
  have hsplit : splitCh ' ' (fen ++ ' ' :: ((fused ++ kf).map entryChunk).flatten)
      = splitCh ' ' fen ++ [((fused ++ kf).map entryChunk).flatten] := by
    rw [splitCh_append_cons, splitCh_of_not_mem _ _ hnospace]
  have hlastc : (fen ++ ' ' :: ((fused ++ kf).map entryChunk).flatten).getLast?
      = some ',' := by
    rw [List.append_cons, List.getLast?_append_of_ne_nil _ hflatne]
    exact getLast?_flatten_chunks _ hne
  have hbody : splitCh ',' ((fused ++ kf).map entryChunk).flatten
      = (fused ++ kf).map entryBody ++ [[]] :=
    splitCh_flatten_chunks _ (fun e he => (hents e he).2.2)
  have hval : validateEntries ((fused ++ kf).map entryBody ++ [[]]) = some true := by
    apply validateEntries_all
    intro p hp
    rcases List.mem_append.mp hp with h1 | h1
    · obtain ⟨e, he, rfl⟩ := List.mem_map.mp h1
      obtain ⟨e1, e2⟩ := e
      rcases List.mem_append.mp he with h2 | h2
      · exact validateEntry_fused e1 e2 (hf _ h2).1 (hf _ h2).2
      · exact validateEntry_king e1 e2 (hk _ h2).1 (hk _ h2).2
    · rw [List.mem_singleton.mp h1]
      rfl
  have hfilter : (((fused ++ kf).map entryBody ++ [[]]).filter
      fun p => decide ('K' ∈ p)) = kf.map entryBody := by
    rw [List.map_append]
    exact filter_kfEntries fused kf hf (fun e he => (hk e he).1)
  have hfset : fusedSetter ((fused ++ kf).map entryBody ++ [[]]) = some fused := by
    unfold fusedSetter
    rw [List.map_append, List.append_assoc]
    rw [fusedSetterAux_bodies fused [] hf (fun e _ => by simp [objGetS]) hnd _]
    rw [List.nil_append]
    rw [fusedSetterAux_kings kf fused ?_ _]
    · rfl
    · intro e he
      obtain ⟨hor, hpc⟩ := hk e he
      refine ⟨hor, ?_, (pieceStrs_facts _ hpc).2.2.2.1⟩
      rcases hor with h | h <;> rw [h]
      · exact kingKeys_facts.1.2.2.1
      · exact kingKeys_facts.2.2.2.1
  have hkset : (if 0 < ((fused ++ kf).map entryBody ++ [[]]).length ∧
      (kf.map entryBody) ≠ [] then kingSetter kf (kf.map entryBody) else some kf)
      = some kf := by
    by_cases hkf0 : kf = []
    · subst hkf0
      simp
    · rw [if_pos ⟨by simp, by simpa using hkf0⟩]
      apply kingSetter_fixed
      intro e he
      obtain ⟨hor, hpc⟩ := hk e he
      obtain ⟨-, -, -, hveq, -, hlow⟩ := pieceStrs_facts _ hpc
      refine ⟨objGetS_of_nodup kf hknd e he, ?_, hveq, hlow⟩
      rcases hor with h | h <;> rw [h]
      · exact kingKeys_facts.1.2.2.1
      · exact kingKeys_facts.2.2.2.1
  rw [hexp]
  unfold importGame
  rw [hlastc, hsplit]
  simp only [List.dropLast_concat, List.getLastD_concat, joinCh_splitCh, hfen, hbody,
    hfilter, hval, hvf, hfset]
  simp only [decide_True, if_true, hfen, hfilter, hval, hfset, hkset]
  simp

/-- C1 (counterexample): with both fusion tables empty — the start state,
in particular — `export` yields the position string with a trailing space
and no trailing comma, so `import` treats the whole string (trailing space
included) as the FEN; splitting on whitespace runs then yields seven
fields and the oracle's six-field validation rejects the engine's own
export. -/
theorem c1_counterexample :
    validateFenB defaultFen = true ∧
    (importGame constVfen emptyTablesState (exportGame emptyTablesState)).isOk = false := by
  constructor
  · decide
  · decide

/-- C1 (witness): a state with one Fusion Map entry and one King Fusion
Table entry round-trips exactly. -/
theorem c1_roundtrip_nonempty_witness :
    importGame constVfen roundTripState (exportGame roundTripState) = .ok roundTripState :=
  c1_roundtrip_nonempty constVfen roundTripState (by decide)
    (fun _ _ => (by decide : validateFenB defaultFen = true))
    (by decide) (by decide) (by decide) (by decide) (by decide)

end StringModel

end FusionChess